import Mathlib

/-!
Verification of the text chunking and structured-content formatting pipeline
of the AI-Resume-Analyzer repository.

Strings are modelled as `List Char`.  JavaScript string indices become `Nat`
indices into the list; `String.prototype.lastIndexOf` returns `-1` on failure
and is therefore modelled with `Int` results.  JavaScript whitespace tests
(`\s`, `trim`) are modelled for the ASCII whitespace characters.
-/

set_option maxRecDepth 4000

/-- ASCII whitespace, as matched by the JavaScript `\s` class and `trim`
(space, tab, newline, carriage return, vertical tab, form feed). -/
def isJsWS (c : Char) : Bool :=
  c = ' ' || c = '\t' || c = '\n' || c = '\r' || c = Char.ofNat 11 || c = Char.ofNat 12

/-- JavaScript `String.prototype.trim`: remove leading and trailing whitespace. -/
def trimL (l : List Char) : List Char :=
  ((l.dropWhile isJsWS).reverse.dropWhile isJsWS).reverse

/-- The non-whitespace characters of a string, in order. -/
def nonWS (l : List Char) : List Char := l.filter (fun c => !isJsWS c)

/-- JavaScript `String.prototype.substring(a, b)`: clamps both indices to the
string and swaps them when `a > b`. -/
def jsSubstring (l : List Char) (a b : Nat) : List Char :=
  (l.drop (min a b)).take (max a b - min a b)

/-- Search downward from index `i` (inclusive) for the character `c`;
`-1` when the character does not occur at an index `≤ i`. -/
def lastIndexOfLe (l : List Char) (c : Char) : Nat → Int
  | 0 => if l.get? 0 = some c then 0 else -1
  | i + 1 => if l.get? (i + 1) = some c then ((i + 1 : Nat) : Int) else lastIndexOfLe l c i

/-- JavaScript `String.prototype.lastIndexOf(c, fromIdx)`: the greatest index
`≤ min fromIdx (length - 1)` holding `c`, or `-1`. -/
def lastIndexOf (l : List Char) (c : Char) (fromIdx : Nat) : Int :=
  if l.length = 0 then -1 else lastIndexOfLe l c (min fromIdx (l.length - 1))

namespace MM

/-- Candidate end of the chunk window starting at `start`, from the body of
`splitTextIntoChunks` in `src/utils/memoryManager.js`: the raw cut
`start + chunkSize`, pulled back to one past the last sentence terminator
(`.`, `?`, `!`) at an index `≤ start + chunkSize` when that index exceeds
`start + chunkSize * 0.5`, else back to the last space under the same
condition, else left as the raw cut.  The comparison with
`start + chunkSize * 0.5` is exact in JavaScript doubles and is rendered
here as `2 * idx > 2 * start + chunkSize` over `Int`. -/
def computeEnd (text : List Char) (chunkSize start : Nat) : Nat :=
  let e0 := start + chunkSize
  if e0 < text.length then
    let sentenceEnd := lastIndexOf text '.' e0
    let questionEnd := lastIndexOf text '?' e0
    let exclamationEnd := lastIndexOf text '!' e0
    let lastSentenceEnd := max (max sentenceEnd questionEnd) exclamationEnd
    if 2 * lastSentenceEnd > 2 * (start : Int) + (chunkSize : Int) then
      (lastSentenceEnd + 1).toNat
    else
      let lastSpace := lastIndexOf text ' ' e0
      if 2 * lastSpace > 2 * (start : Int) + (chunkSize : Int) then
        lastSpace.toNat
      else e0
  else e0

/-- The `while (start < text.length)` loop of `splitTextIntoChunks` in
`src/utils/memoryManager.js`: extract `text.substring(start, end).trim()`,
push it when non-empty, and advance `start = Math.max(start + 1, end - overlap)`
(`end - overlap` saturates at `0` in `Nat`, matching `Math.max` against a
possibly negative value). -/
def chunkLoop (text : List Char) (chunkSize overlap : Nat) (start : Nat) : List (List Char) :=
  if _h : start < text.length then
    let e := computeEnd text chunkSize start
    let chunk := trimL (jsSubstring text start e)
    let next := max (start + 1) (e - overlap)
    (if chunk ≠ [] then [chunk] else []) ++ chunkLoop text chunkSize overlap next
  else []
termination_by text.length - start
decreasing_by
  have h1 : start + 1 ≤ max (start + 1) (computeEnd text chunkSize start - overlap) :=
    le_max_left _ _
  omega

/-- `splitTextIntoChunks(text, chunkSize, overlap)` from
`src/utils/memoryManager.js`.  The guard `!text || text.length <= chunkSize`
returns `[text]` unchanged; otherwise the loop runs and the result is
filtered to non-empty chunks (as in the source's final `filter`). -/
def splitTextIntoChunks (text : List Char) (chunkSize overlap : Nat) : List (List Char) :=
  if text.length = 0 ∨ text.length ≤ chunkSize then [text]
  else (chunkLoop text chunkSize overlap 0).filter (fun c => c ≠ [])

/-- Number of executions of the body of the `while` loop of
`splitTextIntoChunks`, starting from cursor `start` (instrumentation of
`chunkLoop`). -/
def chunkIterLoop (text : List Char) (chunkSize overlap : Nat) (start : Nat) : Nat :=
  if _h : start < text.length then
    let e := computeEnd text chunkSize start
    let next := max (start + 1) (e - overlap)
    1 + chunkIterLoop text chunkSize overlap next
  else 0
termination_by text.length - start
decreasing_by
  have h1 : start + 1 ≤ max (start + 1) (computeEnd text chunkSize start - overlap) :=
    le_max_left _ _
  omega

/-- Number of main-loop iterations performed by `splitTextIntoChunks`
(zero when the `!text || text.length <= chunkSize` guard short-circuits). -/
def chunkIterations (text : List Char) (chunkSize overlap : Nat) : Nat :=
  if text.length = 0 ∨ text.length ≤ chunkSize then 0
  else chunkIterLoop text chunkSize overlap 0

end MM

namespace DW

/-- Candidate window end, from `DocumentWorkerProcessor.splitTextIntoChunks`
in the worker file (`src/unnamed/part_002`); the body is character-for-character
the one in `src/utils/memoryManager.js`. -/
def computeEnd (text : List Char) (chunkSize start : Nat) : Nat :=
  let e0 := start + chunkSize
  if e0 < text.length then
    let sentenceEnd := lastIndexOf text '.' e0
    let questionEnd := lastIndexOf text '?' e0
    let exclamationEnd := lastIndexOf text '!' e0
    let lastSentenceEnd := max (max sentenceEnd questionEnd) exclamationEnd
    if 2 * lastSentenceEnd > 2 * (start : Int) + (chunkSize : Int) then
      (lastSentenceEnd + 1).toNat
    else
      let lastSpace := lastIndexOf text ' ' e0
      if 2 * lastSpace > 2 * (start : Int) + (chunkSize : Int) then
        lastSpace.toNat
      else e0
  else e0

/-- The chunking loop of `DocumentWorkerProcessor.splitTextIntoChunks`. -/
def chunkLoop (text : List Char) (chunkSize overlap : Nat) (start : Nat) : List (List Char) :=
  if _h : start < text.length then
    let e := computeEnd text chunkSize start
    let chunk := trimL (jsSubstring text start e)
    let next := max (start + 1) (e - overlap)
    (if chunk ≠ [] then [chunk] else []) ++ chunkLoop text chunkSize overlap next
  else []
termination_by text.length - start
decreasing_by
  have h1 : start + 1 ≤ max (start + 1) (computeEnd text chunkSize start - overlap) :=
    le_max_left _ _
  omega

/-- `DocumentWorkerProcessor.splitTextIntoChunks(text, chunkSize, overlap)`
from the worker file (`src/unnamed/part_002`). -/
def splitTextIntoChunks (text : List Char) (chunkSize overlap : Nat) : List (List Char) :=
  if text.length = 0 ∨ text.length ≤ chunkSize then [text]
  else (chunkLoop text chunkSize overlap 0).filter (fun c => c ≠ [])

end DW

namespace OPT

/-- Candidate window end, from `OptimizedDocumentProcessor.splitTextAsyncChunks`
in `src/services/optimizedDocumentProcessor.js` (same boundary search as the
other two chunkers). -/
def computeEnd (text : List Char) (chunkSize start : Nat) : Nat :=
  let e0 := start + chunkSize
  if e0 < text.length then
    let sentenceEnd := lastIndexOf text '.' e0
    let questionEnd := lastIndexOf text '?' e0
    let exclamationEnd := lastIndexOf text '!' e0
    let lastSentenceEnd := max (max sentenceEnd questionEnd) exclamationEnd
    if 2 * lastSentenceEnd > 2 * (start : Int) + (chunkSize : Int) then
      (lastSentenceEnd + 1).toNat
    else
      let lastSpace := lastIndexOf text ' ' e0
      if 2 * lastSpace > 2 * (start : Int) + (chunkSize : Int) then
        lastSpace.toNat
      else e0
  else e0

/-- The chunking loop of `splitTextAsyncChunks`; the progress callbacks and
the `await` yield have no effect on the returned value and are omitted. -/
def chunkLoop (text : List Char) (chunkSize overlap : Nat) (start : Nat) : List (List Char) :=
  if _h : start < text.length then
    let e := computeEnd text chunkSize start
    let chunk := trimL (jsSubstring text start e)
    let next := max (start + 1) (e - overlap)
    (if chunk ≠ [] then [chunk] else []) ++ chunkLoop text chunkSize overlap next
  else []
termination_by text.length - start
decreasing_by
  have h1 : start + 1 ≤ max (start + 1) (computeEnd text chunkSize start - overlap) :=
    le_max_left _ _
  omega

/-- `OptimizedDocumentProcessor.splitTextAsyncChunks(text, chunkSize, overlap)`:
unlike the other two chunkers, this variant has no
`!text || text.length <= chunkSize` short-circuit; the loop simply does not
run for empty text. -/
def splitTextAsyncChunks (text : List Char) (chunkSize overlap : Nat) : List (List Char) :=
  (chunkLoop text chunkSize overlap 0).filter (fun c => c ≠ [])

end OPT

namespace TextFormatter

/-! Character classes used by the `TextFormatter` regexes (file
`src/unnamed/part_001`).  The `i`-flagged classes `[A-Z]`/`[a-z]` match any
ASCII letter; `\b` uses the JavaScript word class `[A-Za-z0-9_]`. -/

/-- ASCII letter (the `[a-zA-Z]` class, and `[A-Z]`/`[a-z]` under the `i` flag). -/
def isAsciiLetter (c : Char) : Bool :=
  ('a' ≤ c && c ≤ 'z') || ('A' ≤ c && c ≤ 'Z')

/-- ASCII uppercase letter (the `[A-Z]` class without the `i` flag). -/
def isUpper (c : Char) : Bool := 'A' ≤ c && c ≤ 'Z'

/-- ASCII digit (the `\d` class). -/
def isDigit (c : Char) : Bool := '0' ≤ c && c ≤ '9'

/-- JavaScript word character (`\w`), used by the `\b` boundary. -/
def isWordChar (c : Char) : Bool := isAsciiLetter c || isDigit c || c = '_'

/-- The apostrophe character, built numerically. -/
def apos : Char := Char.ofNat 39

/-- The double-quote character. -/
def dquote : Char := Char.ofNat 34

/-- The backtick character. -/
def btick : Char := Char.ofNat 96

/-- Member of the header body class `[A-Z\s&\-']`. -/
def isHeaderClass (c : Char) : Bool :=
  isUpper c || isJsWS c || c = '&' || c = '-' || c = apos

/-- One of the bullet characters of the class `[-•*]`. -/
def isBulletChar (c : Char) : Bool := c = '-' || c = '•' || c = '*'

/-- Length of the maximal run of characters satisfying `p` at the head. -/
def runLen (p : Char → Bool) (l : List Char) : Nat := (l.takeWhile p).length

/-- Lowercasing for the `i` regex flag (ASCII letters only, as in the source's
keyword alternations). -/
def lowerC (c : Char) : Char := if 'A' ≤ c && c ≤ 'Z' then Char.ofNat (c.toNat + 32) else c

/-- Split on `'\n'` (JavaScript `text.split('\n')`). -/
def splitNL (l : List Char) : List (List Char) := l.splitOn '\n'

/-- Join with `'\n'` (JavaScript `lines.join('\n')`). -/
def joinNL (ls : List (List Char)) : List Char := List.intercalate ['\n'] ls

/-! A small matcher algebra for the line-anchored regexes of
`filterUnwantedContent`.  A matcher sends a suffix of the line to the list of
numbers of characters a match may consume, which models regex alternation and
backtracking over character classes exactly. -/

/-- Matcher: possible numbers of consumed characters on a given suffix. -/
def Mtch : Type := List Char → List Nat

/-- Match the empty string. -/
def mEps : Mtch := fun _ => [0]

/-- Match one character of a class. -/
def mChar (p : Char → Bool) : Mtch := fun s =>
  match s with
  | [] => []
  | c :: _ => if p c then [1] else []

/-- Sequencing of matchers. -/
def mSeq (a b : Mtch) : Mtch := fun s =>
  ((a s).map (fun n => (b (s.drop n)).map (n + ·))).flatten.dedup

/-- Alternation of matchers. -/
def mAlt (a b : Mtch) : Mtch := fun s => (a s ++ b s).dedup

/-- Optional matcher (`x?`). -/
def mOpt (a : Mtch) : Mtch := mAlt mEps a

/-- Class repetition `[c]{lo,hi}`: any count between `lo` and the bound
`min hi (maximal run)`. -/
def mClassRange (p : Char → Bool) (lo hi : Nat) : Mtch := fun s =>
  (List.range (hi + 1)).filter (fun n => lo ≤ n && n ≤ runLen p s)

/-- Class repetition `[c]{lo,}`. -/
def mClassAtLeast (p : Char → Bool) (lo : Nat) : Mtch := fun s =>
  (List.range (runLen p s + 1)).filter (fun n => lo ≤ n)

/-- Class star `[c]*`. -/
def mStarClass (p : Char → Bool) : Mtch := mClassAtLeast p 0

/-- Class plus `[c]+`. -/
def mPlusClass (p : Char → Bool) : Mtch := mClassAtLeast p 1

/-- Case-insensitive literal string. -/
def mStrCI (w : String) : Mtch := fun s =>
  if (s.take w.data.length).map lowerC = w.data.map lowerC then [w.data.length] else []

/-- Exact repetition of a matcher. -/
def mRep (a : Mtch) : Nat → Mtch
  | 0 => mEps
  | n + 1 => mSeq a (mRep a n)

/-- Saturating closure: all consumption counts reachable by iterating `a`. -/
def mManyAux (a : Mtch) (s : List Char) : Nat → List Nat
  | 0 => [0]
  | f + 1 =>
    let prev := mManyAux a s f
    (prev ++ (prev.map (fun n => (a (s.drop n)).map (n + ·))).flatten).dedup

/-- Kleene star of a matcher (counts bounded by the suffix length). -/
def mMany (a : Mtch) : Mtch := fun s => mManyAux a s (s.length + 1)

/-- Repetition `x{k,}`. -/
def mAtLeast (a : Mtch) (k : Nat) : Mtch := mSeq (mRep a k) (mMany a)

/-- Chained alternation. -/
def mAlts (l : List Mtch) : Mtch := l.foldr mAlt (fun _ => [])

/-- Whole-line match for a `^...$`-anchored pattern. -/
def fullLineMatch (m : Mtch) (line : List Char) : Bool :=
  (m line).any (fun n => n = line.length)

/-- Case-insensitive substring containment. -/
def containsCI (needle : String) (hay : List Char) : Bool :=
  (List.range (hay.length + 1)).any (fun i =>
    ((hay.drop i).take needle.data.length).map lowerC = needle.data.map lowerC)

/-- Case-insensitive whole-word containment (the `\b(?:w)\b` test). -/
def containsWordCI (hay : List Char) (w : String) : Bool :=
  (List.range (hay.length + 1)).any (fun i =>
    ((hay.drop i).take w.data.length).map lowerC = w.data.map lowerC &&
    (decide (i = 0) || !(isWordChar ((hay.take i).getLastD ' '))) &&
    (decide (i + w.data.length = hay.length) ||
      !(isWordChar ((hay.drop (i + w.data.length)).headD ' '))))

end TextFormatter

namespace TextFormatter

/-! The nine `dynamicPatterns` of `filterUnwantedContent`
(`src/unnamed/part_001`).  All of them except the broken-spacing pattern are
`^...$`-anchored with the `m` flag and therefore act per line; they are
modelled as whole-line matches (trailing `\s*` runs are taken line-local). -/

/-- Pattern `^"?[A-Z\s]{3,}(?:FOR|TO|OF|WITH|IN|USING|BY)\s+[A-Z\s]{3,}"?\s*$`
with the `i` flag. -/
def patIsolatedTitle : Mtch :=
  mSeq (mOpt (mChar (fun c => c = dquote)))
    (mSeq (mClassAtLeast (fun c => isAsciiLetter c || isJsWS c) 3)
      (mSeq (mAlts [mStrCI "FOR", mStrCI "TO", mStrCI "OF", mStrCI "WITH",
                    mStrCI "IN", mStrCI "USING", mStrCI "BY"])
        (mSeq (mPlusClass isJsWS)
          (mSeq (mClassAtLeast (fun c => isAsciiLetter c || isJsWS c) 3)
            (mSeq (mOpt (mChar (fun c => c = dquote))) (mStarClass isJsWS))))))

/-- The keyword alternation `(?:Developed?|Created?|Built?|Designed?)` with the
`i` flag (the `?` makes the final letter of each keyword optional). -/
def patVerb : Mtch :=
  mAlts [mSeq (mStrCI "Develope") (mOpt (mChar (fun c => lowerC c = 'd'))),
         mSeq (mStrCI "Create") (mOpt (mChar (fun c => lowerC c = 'd'))),
         mSeq (mStrCI "Buil") (mOpt (mChar (fun c => lowerC c = 't'))),
         mSeq (mStrCI "Designe") (mOpt (mChar (fun c => lowerC c = 'd')))]

/-- Pattern `^"?(?:[A-Z]+\s*){2,}(?:Developed?|Created?|Built?|Designed?)\s+[a-z\s]{5,50}\s*"?\s*$`
with the `i` flag. -/
def patIncompleteProject : Mtch :=
  mSeq (mOpt (mChar (fun c => c = dquote)))
    (mSeq (mAtLeast (mSeq (mPlusClass isAsciiLetter) (mStarClass isJsWS)) 2)
      (mSeq patVerb
        (mSeq (mPlusClass isJsWS)
          (mSeq (mClassRange (fun c => isAsciiLetter c || isJsWS c) 5 50)
            (mSeq (mStarClass isJsWS)
              (mSeq (mOpt (mChar (fun c => c = dquote))) (mStarClass isJsWS)))))))

/-- Pattern `^\s*(?:LLM\d*|API|SDK|ML|AI|NLP|SQL)\s*[a-z\s]{0,10}\s*$` with the
`i` flag. -/
def patAcronym : Mtch :=
  mSeq (mStarClass isJsWS)
    (mSeq (mAlts [mSeq (mStrCI "LLM") (mStarClass isDigit), mStrCI "API",
                  mStrCI "SDK", mStrCI "ML", mStrCI "AI", mStrCI "NLP", mStrCI "SQL"])
      (mSeq (mStarClass isJsWS)
        (mSeq (mClassRange (fun c => isAsciiLetter c || isJsWS c) 0 10)
          (mStarClass isJsWS))))

/-- Pattern `^"?(?:Developed?|Created?|Built?|Designed?)\s+(?:a|an|the)?\s+[^.]{5,30}\s*"?\s*$`
with the `i` flag. -/
def patGenericProject : Mtch :=
  mSeq (mOpt (mChar (fun c => c = dquote)))
    (mSeq patVerb
      (mSeq (mPlusClass isJsWS)
        (mSeq (mOpt (mAlts [mStrCI "a", mStrCI "an", mStrCI "the"]))
          (mSeq (mPlusClass isJsWS)
            (mSeq (mClassRange (fun c => !(c = '.')) 5 30)
              (mSeq (mStarClass isJsWS)
                (mSeq (mOpt (mChar (fun c => c = dquote))) (mStarClass isJsWS))))))))

/-- Pattern `^"[^"]{5,50}"\s*$`. -/
def patQuotedFragment : Mtch :=
  mSeq (mChar (fun c => c = dquote))
    (mSeq (mClassRange (fun c => !(c = dquote)) 5 50)
      (mSeq (mChar (fun c => c = dquote)) (mStarClass isJsWS)))

/-- Pattern `^\s*(?:[A-Z]{2,}\s*){2,}[a-z\s]{0,20}\s*$` with the `i` flag. -/
def patAcronymRun : Mtch :=
  mSeq (mStarClass isJsWS)
    (mSeq (mAtLeast (mSeq (mClassAtLeast isAsciiLetter 2) (mStarClass isJsWS)) 2)
      (mSeq (mClassRange (fun c => isAsciiLetter c || isJsWS c) 0 20)
        (mStarClass isJsWS)))

/-! The broken-spacing pattern `\b[a-zA-Z]+(?:\s+[a-zA-Z]){1,3}\s+[a-zA-Z]+\b`
is a global (not line-anchored) replace.  Backtracking makes every run forced:
the leading `[a-zA-Z]+` must be a maximal letter run followed by whitespace,
each `(?:\s+[a-zA-Z])` consumes a maximal whitespace run plus a letter that
must itself be followed by whitespace, and the final `[a-zA-Z]+\b` is a
maximal letter run whose follower (if any) is a non-word character.  The
repetition count `{1,3}` is tried greedily, three first. -/

/-- `\s+[a-zA-Z]+\b`: whitespace run, then a maximal letter run followed by a
non-word character or the end; returns the consumed length. -/
def bsFinalPart (s : List Char) : Option Nat :=
  let w := runLen isJsWS s
  if w = 0 then none
  else
    let r := runLen isAsciiLetter (s.drop w)
    if r = 0 then none
    else
      match s.drop (w + r) with
      | [] => some (w + r)
      | c :: _ => if isWordChar c then none else some (w + r)

/-- `\s+[a-zA-Z]` where the single letter must be followed by whitespace (the
continuation of the pattern always starts with `\s`); returns the consumed
length. -/
def bsMidPart (s : List Char) : Option Nat :=
  let w := runLen isJsWS s
  if w = 0 then none
  else
    match s.drop w with
    | c :: rest => if isAsciiLetter c && decide (runLen isJsWS rest ≥ 1) then some (w + 1) else none
    | [] => none

/-- `k` mid parts followed by the final part. -/
def bsTryK (s : List Char) : Nat → Option Nat
  | 0 => bsFinalPart s
  | k + 1 =>
    match bsMidPart s with
    | none => none
    | some n => (bsTryK (s.drop n) k).map (n + ·)

/-- Length of a broken-spacing match starting at the head of `s` (which must
sit at a `\b` boundary), trying the repetition counts 3, 2, 1 greedily. -/
def bsTryLen (s : List Char) : Option Nat :=
  let r := runLen isAsciiLetter s
  if r = 0 then none
  else
    let rest := s.drop r
    match bsTryK rest 3 with
    | some n => some (r + n)
    | none =>
      match bsTryK rest 2 with
      | some n => some (r + n)
      | none => (bsTryK rest 1).map (r + ·)

/-- Global replace of the broken-spacing pattern by the empty string:
leftmost-first scan, resuming after each match.  The fuel argument (one unit
per consumed character, initialised to the length) makes the recursion
structural; every step consumes at least one character, so the fuel never
runs out. -/
def bsScan : Nat → List Char → Bool → List Char
  | _, [], _ => []
  | 0, s, _ => s
  | fuel + 1, c :: rest, prevWord =>
    if prevWord then c :: bsScan fuel rest (isWordChar c)
    else
      match bsTryLen (c :: rest) with
      | some n => bsScan fuel (rest.drop (n - 1)) true
      | none => c :: bsScan fuel rest (isWordChar c)

/-- `filtered.replace(brokenSpacingPattern, '')`. -/
def brokenSpacingRemove (l : List Char) : List Char := bsScan l.length l false

/-- Replace the content of every line matching `p` by the empty string
(the effect of a full-line `^...$`/`gm` replace). -/
def removeLineMatches (p : List Char → Bool) (text : List Char) : List Char :=
  joinNL ((splitNL text).map (fun ln => if p ln then [] else ln))

end TextFormatter

namespace TextFormatter

/-! Scanners for the global replaces of `formatAnalysisText`
(`src/unnamed/part_001`).  Each models one `replace` call; `gm`-flagged
`^`-anchored patterns are attempted at line-start positions of the scanned
string, with the scan resuming after each match. -/

/-- Space or tab (the `[ \t]` class). -/
def isHTab (c : Char) : Bool := c = ' ' || c = '\t'

/-- `replace(/^#{1,6}\s+/gm, '')`: at a line start, one to six `#` followed by
a whitespace run are removed (seven or more `#` never match). -/
def rmHashF : Nat → List Char → Bool → List Char
  | _, [], _ => []
  | 0, s, _ => s
  | fuel + 1, c :: rest, atStart =>
    let k := runLen (fun x => x = '#') (c :: rest)
    let w := runLen isJsWS ((c :: rest).drop k)
    if atStart && decide (1 ≤ k) && decide (k ≤ 6) && decide (1 ≤ w) then
      rmHashF fuel ((c :: rest).drop (k + w))
        ((((c :: rest).drop k).take w).getLastD ' ' = '\n')
    else
      c :: rmHashF fuel rest (c = '\n')

/-- Fuelled scanner for `replace(/^#{1,6}\s+/gm, '')` at full fuel. -/
def rmHash (s : List Char) (atStart : Bool) : List Char := rmHashF s.length s atStart

/-- `replace(/\*\*([^*]+)\*\*/g, '$1')`: remove bold markers, keeping the
enclosed non-`*` run. -/
def rmBoldF : Nat → List Char → List Char
  | _, [] => []
  | 0, s => s
  | _ + 1, [c] => [c]
  | fuel + 1, a :: b :: rest =>
    if a = '*' && b = '*' then
      let run := rest.takeWhile (fun x => !(x = '*'))
      if decide (run ≠ []) && decide ((rest.drop run.length).take 2 = ['*', '*']) then
        run ++ rmBoldF fuel (rest.drop (run.length + 2))
      else a :: rmBoldF fuel (b :: rest)
    else a :: rmBoldF fuel (b :: rest)

/-- Fuelled scanner for `replace(/\*\*([^*]+)\*\*/g, '$1')` at full fuel. -/
def rmBold (s : List Char) : List Char := rmBoldF s.length s

/-- `replace(/\*([^*]+)\*/g, '$1')` (also used for the backtick code spans
with a different delimiter): remove single-delimiter emphasis markers. -/
def rmDelimF (d : Char) : Nat → List Char → List Char
  | _, [] => []
  | 0, s => s
  | fuel + 1, a :: rest =>
    if a = d then
      let run := rest.takeWhile (fun x => !(x = d))
      if decide (run ≠ []) && decide ((rest.drop run.length).take 1 = [d]) then
        run ++ rmDelimF d fuel (rest.drop (run.length + 1))
      else a :: rmDelimF d fuel rest
    else a :: rmDelimF d fuel rest

/-- Fuelled scanner for the single-delimiter emphasis replace at full fuel. -/
def rmDelim (d : Char) (s : List Char) : List Char := rmDelimF d s.length s

/-- `replace(/[ \t]{3,}/g, ' ')`: collapse runs of three or more spaces/tabs
to a single space. -/
def collapseHTabF : Nat → List Char → List Char
  | _, [] => []
  | 0, s => s
  | fuel + 1, c :: rest =>
    if isHTab c then
      let r := 1 + runLen isHTab rest
      (if 3 ≤ r then [' '] else (c :: rest).take r) ++ collapseHTabF fuel (rest.drop (r - 1))
    else c :: collapseHTabF fuel rest

/-- Fuelled scanner for `replace(/[ \t]{3,}/g, ' ')` at full fuel. -/
def collapseHTab (s : List Char) : List Char := collapseHTabF s.length s

/-- `replace(/\n{3,}/g, '\n\n')`: collapse runs of three or more newlines to
exactly two. -/
def collapseNLF : Nat → List Char → List Char
  | _, [] => []
  | 0, s => s
  | fuel + 1, c :: rest =>
    if c = '\n' then
      let r := 1 + runLen (fun x => x = '\n') rest
      (if 3 ≤ r then ['\n', '\n'] else (c :: rest).take r) ++ collapseNLF fuel (rest.drop (r - 1))
    else c :: collapseNLF fuel rest

/-- Fuelled scanner for `replace(/\n{3,}/g, '\n\n')` at full fuel. -/
def collapseNL (s : List Char) : List Char := collapseNLF s.length s

/-- `replace(/^[\s]*[-•*]\s+/gm, '• ')`: at a line start, a whitespace run, a
bullet character and a following whitespace run become `"• "`. -/
def normBulletsF : Nat → List Char → Bool → List Char
  | _, [], _ => []
  | 0, s, _ => s
  | fuel + 1, c :: rest, atStart =>
    let s := c :: rest
    let v := runLen isJsWS s
    let w := runLen isJsWS (s.drop (v + 1))
    if atStart && isBulletChar ((s.drop v).headD 'x') && decide (1 ≤ w) then
      '•' :: ' ' ::
        normBulletsF fuel (s.drop (v + 1 + w)) (((s.drop (v + 1)).take w).getLastD ' ' = '\n')
    else
      c :: normBulletsF fuel rest (c = '\n')

/-- Fuelled scanner for `replace(/^[\s]*[-•*]\s+/gm, '• ')` at full fuel. -/
def normBullets (s : List Char) (atStart : Bool) : List Char := normBulletsF s.length s atStart

/-- `replace(/^[\s]*(\d+)[.)]\s+/gm, '$1. ')`: at a line start, a whitespace
run, a digit run, `.` or `)` and a following whitespace run become the digits
followed by `". "`. -/
def normNumberedF : Nat → List Char → Bool → List Char
  | _, [], _ => []
  | 0, s, _ => s
  | fuel + 1, c :: rest, atStart =>
    let s := c :: rest
    let v := runLen isJsWS s
    let d := runLen isDigit (s.drop v)
    let pc := (s.drop (v + d)).headD 'x'
    let w := runLen isJsWS (s.drop (v + d + 1))
    if atStart && decide (1 ≤ d) && (pc = '.' || pc = ')') && decide (1 ≤ w) then
      ((s.drop v).take d) ++ '.' :: ' ' ::
        normNumberedF fuel (s.drop (v + d + 1 + w))
          (((s.drop (v + d + 1)).take w).getLastD ' ' = '\n')
    else
      c :: normNumberedF fuel rest (c = '\n')

/-- Fuelled scanner for `replace(/^[\s]*(\d+)[.)]\s+/gm, '$1. ')` at full fuel. -/
def normNumbered (s : List Char) (atStart : Bool) : List Char := normNumberedF s.length s atStart

/-- Remove trailing characters satisfying `p`. -/
def dropTrailing (p : Char → Bool) (l : List Char) : List Char :=
  (l.reverse.dropWhile p).reverse

/-- `replace(/^[ \t]+|[ \t]+$/gm, '')`: strip horizontal whitespace at both
ends of every line. -/
def stripLineEdges (l : List Char) : List Char :=
  joinNL ((splitNL l).map (fun ln => dropTrailing isHTab (ln.dropWhile isHTab)))

/-- `replace(/  +/g, ' ')`: collapse runs of two or more spaces to one. -/
def collapseSpacesF : Nat → List Char → List Char
  | _, [] => []
  | 0, s => s
  | fuel + 1, c :: rest =>
    if c = ' ' then
      let r := 1 + runLen (fun x => x = ' ') rest
      (if 2 ≤ r then [' '] else [c]) ++ collapseSpacesF fuel (rest.drop (r - 1))
    else c :: collapseSpacesF fuel rest

/-- Fuelled scanner for `replace(/  +/g, ' ')` at full fuel. -/
def collapseSpaces (s : List Char) : List Char := collapseSpacesF s.length s

/-- `TextFormatter.formatAnalysisText` (`src/unnamed/part_001`): the chain of
replaces cleaning markdown and whitespace, ending in `trim()`. -/
def formatAnalysisText (text : List Char) : List Char :=
  if text = [] then []
  else
    trimL (collapseSpaces (stripLineEdges (normNumbered (normBullets
      (collapseNL (collapseHTab (rmDelim btick (rmDelim '*' (rmBold
        (rmHash text true)))))) true) true)))

end TextFormatter

namespace TextFormatter

/-- A line removed by one of the three meta-commentary patterns
`.*(?:This single|powerful statement|reveals a candidate).*$`,
`.*(?:Here's a structured breakdown|structured analysis).*$`,
`.*(?:demonstrates hands-on experience with).*$` (all `gmi`; a line containing
one of the phrases matches wholly). -/
def isCommentaryLine (ln : List Char) : Bool :=
  containsCI "This single" ln || containsCI "powerful statement" ln ||
  containsCI "reveals a candidate" ln ||
  containsCI (String.mk ("Here".data ++ [apos] ++ "s a structured breakdown".data)) ln ||
  containsCI "structured analysis" ln ||
  containsCI "demonstrates hands-on experience with" ln

/-- The bullet-start test `trimmed.match(/^[-•*]\s+/)` of the line filter. -/
def startsWithBulletWs (l : List Char) : Bool :=
  match l with
  | c :: rest => isBulletChar c && decide (1 ≤ runLen isJsWS rest)
  | [] => false

/-- The all-caps test `trimmed.match(/^[A-Z\s]{3,}$/)` (no `i` flag). -/
def isAllCapsLine (l : List Char) : Bool :=
  decide (3 ≤ l.length) && l.all (fun c => isUpper c || isJsWS c)

/-- The meaningful-line predicate of `filterUnwantedContent`: the trimmed line
is non-empty, is not a short (< 15 characters) non-bullet line, and is not an
all-caps header without content. -/
def isMeaningfulLine (line : List Char) : Bool :=
  let t := trimL line
  !(decide (t = [])) &&
  !(decide (t.length < 15) && !(startsWithBulletWs t)) &&
  !(isAllCapsLine t)

/-- `TextFormatter.filterUnwantedContent` (`src/unnamed/part_001`): the nine
`dynamicPatterns` replaces in order, then the meaningful-line filter, then
removal of all-whitespace lines, collapsing of triple newlines and a final
trim. -/
def filterUnwantedContent (text : List Char) : List Char :=
  if text = [] then []
  else
    let f1 := removeLineMatches (fullLineMatch patIsolatedTitle) text
    let f2 := removeLineMatches (fullLineMatch patIncompleteProject) f1
    let f3 := brokenSpacingRemove f2
    let f4 := removeLineMatches (fullLineMatch patAcronym) f3
    let f5 := removeLineMatches (fullLineMatch patGenericProject) f4
    let f6 := removeLineMatches isCommentaryLine f5
    let f7 := removeLineMatches (fullLineMatch patQuotedFragment) f6
    let f8 := removeLineMatches (fullLineMatch patAcronymRun) f7
    let f9 := joinNL ((splitNL f8).filter isMeaningfulLine)
    let f10 := removeLineMatches (fun ln => ln.all isJsWS) f9
    trimL (collapseNL f10)

/-! `convertToBulletPoints` and its helpers. -/

/-- Index (counted from the start of `w`) one past the last `'\n'` in `w`, if
any. -/
def lastNLPos (w : List Char) : Option Nat :=
  match w.reverse.findIdx? (fun c => c = '\n') with
  | some k => some (w.length - k)
  | none => none

/-- Length of a `/\n\s*\n/` match at the head of `s`: a newline, then the
greedy `\s*` backtracked so that the final consumed character is again a
newline inside the maximal whitespace run. -/
def paraMatchLen (s : List Char) : Option Nat :=
  match s with
  | c :: rest =>
    if c = '\n' then
      match lastNLPos (rest.takeWhile isJsWS) with
      | some p => some (1 + p)
      | none => none
    else none
  | [] => none

/-- `text.split(/\n\s*\n/)`: split at successive leftmost matches. -/
def splitParasGo : Nat → List Char → List Char → List (List Char)
  | _, [], acc => [acc.reverse]
  | 0, s, acc => [acc.reverse ++ s]
  | fuel + 1, c :: rest, acc =>
    match paraMatchLen (c :: rest) with
    | some n => acc.reverse :: splitParasGo fuel (rest.drop (n - 1)) []
    | none => splitParasGo fuel rest (c :: acc)

/-- Paragraph segments of the text. -/
def splitParas (l : List Char) : List (List Char) := splitParasGo l.length l []

/-- The passthrough test of `convertToBulletPoints`:
`line.match(/^(?:[-•*]|\d+[.)]|[A-Z][A-Z\s&\-']{3,}(?::|$))/)`. -/
def startHeaderOrBullet (l : List Char) : Bool :=
  match l with
  | [] => false
  | c :: rest =>
    isBulletChar c ||
    (isDigit c &&
      (let d := runLen isDigit (c :: rest)
       match (c :: rest).drop d with
       | p :: _ => p = '.' || p = ')'
       | [] => false)) ||
    (isUpper c &&
      (let r := runLen isHeaderClass rest
       decide (3 ≤ r) &&
       (decide (rest.length = r) || decide ((rest.drop r).headD 'x' = ':'))))

/-- `split(/(?<=[.!?])\s+/)`: split at whitespace runs preceded by a sentence
terminator. -/
def sentenceSplitGo : Nat → List Char → Option Char → List Char → List (List Char)
  | _, [], _, acc => [acc.reverse]
  | 0, s, _, acc => [acc.reverse ++ s]
  | fuel + 1, c :: rest, prev, acc =>
    if isJsWS c && (prev = some '.' || prev = some '!' || prev = some '?') then
      acc.reverse :: sentenceSplitGo fuel (rest.drop (runLen isJsWS rest)) (some ' ') []
    else
      sentenceSplitGo fuel rest (some c) (c :: acc)

/-- Sentence pieces of a line. -/
def sentenceSplit (l : List Char) : List (List Char) := sentenceSplitGo l.length l none []

/-- Sentence pieces that survive `filter(s => s.trim().length > 10)`. -/
def longSentences (l : List Char) : List (List Char) :=
  (sentenceSplit l).filter (fun s => decide (10 < (trimL s).length))

/-- Bulletize a list of trimmed sentences: `sentences.map(s => `• ${s.trim()}`).join('\n')`. -/
def bulletizeSentences (ss : List (List Char)) : List Char :=
  joinNL (ss.map (fun s => '•' :: ' ' :: trimL s))

/-- Per-line conversion inside a multi-segment text (the `segments.length > 1`
branch of `convertToBulletPoints`). -/
def convLineMulti (total : Nat) (idx : Nat) (line : List Char) : List Char :=
  if startHeaderOrBullet line then line
  else if decide (30 < line.length) && decide (idx = 0) && decide (total = 1) &&
      decide (1 < (longSentences line).length) then
    bulletizeSentences (longSentences line)
  else if decide (15 < line.length) && !(isBulletChar (line.headD 'x')) then
    '•' :: ' ' :: line
  else line

/-- Per-line conversion for single-segment text (the `else` branch of
`convertToBulletPoints`). -/
def convLineSingle (line : List Char) : List Char :=
  if startHeaderOrBullet line then line
  else if decide (80 < line.length) && decide (1 < (longSentences line).length) then
    bulletizeSentences (longSentences line)
  else if decide (15 < line.length) then '•' :: ' ' :: line
  else line

/-- Trimmed non-empty lines of a text (`split('\n').map(trim).filter(len > 0)`). -/
def cleanLines (l : List Char) : List (List Char) :=
  ((splitNL l).map trimL).filter (fun ln => ln ≠ [])

/-- Mapping of one paragraph segment in the multi-segment branch. -/
def mapSegment (seg : List Char) : List Char :=
  let lines := cleanLines seg
  joinNL (lines.mapIdx (fun idx ln => convLineMulti lines.length idx ln))

/-- `TextFormatter.convertToBulletPoints` (`src/unnamed/part_001`). -/
def convertToBulletPoints (text : List Char) : List Char :=
  if text = [] then []
  else
    let segments := (splitParas text).filter (fun s => trimL s ≠ [])
    if 1 < segments.length then
      List.intercalate ['\n', '\n'] (segments.map mapSegment)
    else
      joinNL ((cleanLines text).map convLineSingle)

end TextFormatter

namespace TextFormatter

/-- One classified content unit.  JavaScript items are objects with `type`,
`content`, `priority` and (in list modes) `category` fields; the absent
`category` of section items is `none`. -/
structure ContentItem where
  itemType : String
  content : List Char
  priority : String
  category : Option String
deriving DecidableEq, Repr

/-- One titled section. -/
structure ContentSection where
  title : List Char
  items : List ContentItem
deriving DecidableEq, Repr

/-- The tagged result of `parseStructuredContent`: a plain text placeholder,
`{type:'sections'}`, or `{type:'enhanced_list'}` whose content object is
modelled as an insertion-ordered association list. -/
inductive StructuredContent where
  | text (content : List Char)
  | sections (secs : List ContentSection)
  | enhancedList (groups : List (String × List ContentItem))
deriving DecidableEq, Repr

/-- The high-priority action-verb vocabulary of `assessContentPriority`. -/
def highKeywords : List String :=
  ["achieved", "increased", "improved", "reduced", "led", "managed", "developed",
   "created", "designed", "implemented", "optimized", "streamlined", "delivered",
   "executed", "launched", "built"]

/-- The medium-priority competency vocabulary of `assessContentPriority`. -/
def mediumKeywords : List String :=
  ["experience", "skills", "knowledge", "proficient", "familiar", "worked",
   "assisted", "participated", "collaborated", "supported"]

/-- `TextFormatter.assessContentPriority` (`src/unnamed/part_001`):
`high` on an action-verb match, `medium` on a competency match, else `low`. -/
def assessContentPriority (content : List Char) : String :=
  if highKeywords.any (containsWordCI content) then "high"
  else if mediumKeywords.any (containsWordCI content) then "medium"
  else "low"

/-- `TextFormatter.categorizeContent` (`src/unnamed/part_001`): first matching
keyword class among experience, technical, education, achievement, leadership;
else `general`.  The `years?`/`skills?`/`tools?` patterns match both the
singular and the plural word. -/
def categorizeContent (content : List Char) : String :=
  if ["year", "years", "experience", "background"].any (containsWordCI content) then
    "experience"
  else if ["skill", "skills", "technology", "programming", "software", "tool",
      "tools"].any (containsWordCI content) then "technical"
  else if ["education", "degree", "certification", "training",
      "course"].any (containsWordCI content) then "education"
  else if ["achieved", "accomplished", "delivered", "increased",
      "improved"].any (containsWordCI content) then "achievement"
  else if ["leadership", "managed", "led", "team",
      "project"].any (containsWordCI content) then "leadership"
  else "general"

/-- Length of the prefix matched by the list pattern
`/^(?:[-•*]|\d+[.)]|[a-z][.)])\s+/i`, if it matches. -/
def listPatternLen (l : List Char) : Option Nat :=
  match l with
  | [] => none
  | c :: rest =>
    if isBulletChar c then
      let w := runLen isJsWS rest
      if 1 ≤ w then some (1 + w) else none
    else if isDigit c then
      let d := runLen isDigit (c :: rest)
      match (c :: rest).drop d with
      | p :: rest2 =>
        if (p = '.' || p = ')') && decide (1 ≤ runLen isJsWS rest2) then
          some (d + 1 + runLen isJsWS rest2)
        else none
      | [] => none
    else if isAsciiLetter c then
      match rest with
      | p :: rest2 =>
        if (p = '.' || p = ')') && decide (1 ≤ runLen isJsWS rest2) then
          some (2 + runLen isJsWS rest2)
        else none
      | [] => none
    else none

/-- `listPattern.test(line)`. -/
def listPatternTest (l : List Char) : Bool := (listPatternLen l).isSome

/-- `line.replace(listPattern, '')`. -/
def listPatternStrip (l : List Char) : List Char :=
  match listPatternLen l with
  | some n => l.drop n
  | none => l

/-- `headerPattern.test(line)` for `/^[A-Z][A-Z\s&\-']{3,}(?::|$)/`. -/
def headerTest (l : List Char) : Bool :=
  match l with
  | [] => false
  | c :: rest =>
    isUpper c &&
    (let r := runLen isHeaderClass rest
     decide (3 ≤ r) && (decide (rest.length = r) || decide ((rest.drop r).headD 'x' = ':')))

/-- `numberedHeaderPattern.test(line)` for `/^\d+\.\s*[A-Z][A-Z\s&\-']{3,}/`. -/
def numberedHeaderTest (l : List Char) : Bool :=
  let d := runLen isDigit l
  decide (1 ≤ d) &&
  (match l.drop d with
   | '.' :: rest =>
     let w := runLen isJsWS rest
     (match rest.drop w with
      | c :: rest2 => isUpper c && decide (3 ≤ runLen isHeaderClass rest2)
      | [] => false)
   | _ => false)

/-- Stable sort of a group by descending priority: the comparator
`(priorityOrder[b.priority] || 1) - (priorityOrder[a.priority] || 1)` ranks
`high` (3) before `medium` (2) before everything else (1), preserving the
relative order of equally ranked items. -/
def sortByPriority (items : List ContentItem) : List ContentItem :=
  items.filter (fun it => it.priority = "high") ++
  items.filter (fun it => it.priority = "medium") ++
  items.filter (fun it => it.priority ≠ "high" ∧ it.priority ≠ "medium")

/-- First-occurrence deduplication (JavaScript object keys keep insertion
order). -/
def keysInOrderF : Nat → List String → List String
  | _, [] => []
  | 0, l => l
  | fuel + 1, k :: rest => k :: keysInOrderF fuel (rest.filter (fun x => x ≠ k))

/-- First-occurrence deduplication at full fuel. -/
def keysInOrder (l : List String) : List String := keysInOrderF l.length l

/-- `TextFormatter.groupSimilarContent` (`src/unnamed/part_001`): group items
by `item.category || 'general'` in insertion order, each group sorted by
descending priority. -/
def groupSimilarContent (items : List ContentItem) : List (String × List ContentItem) :=
  let keyOf := fun (it : ContentItem) => it.category.getD "general"
  (keysInOrder (items.map keyOf)).map (fun k =>
    (k, sortByPriority (items.filter (fun it => keyOf it = k))))

/-- `TextFormatter.parseListContent` (`src/unnamed/part_001`): list lines
become `listItem`s (stripped, prioritized, categorized); other lines longer
than 10 characters become `description`s; the result is the grouped
`enhanced_list`. -/
def parseListContent (lines : List (List Char)) : StructuredContent :=
  let items := lines.flatMap (fun line =>
    if listPatternTest line then
      let content := trimL (listPatternStrip line)
      [{ itemType := "listItem", content := content,
         priority := assessContentPriority content,
         category := some (categorizeContent content) : ContentItem }]
    else if 10 < line.length then
      [{ itemType := "description", content := line,
         priority := assessContentPriority line, category := none : ContentItem }]
    else [])
  .enhancedList (groupSimilarContent items)

/-- `TextFormatter.parseAsBulletList` (`src/unnamed/part_001`): every line,
stripped of one leading bullet via `replace(/^[-•*]\s*/, '')` and trimmed,
becomes a `bullet` item under the single key `general`. -/
def parseAsBulletList (lines : List (List Char)) : StructuredContent :=
  .enhancedList [("general", lines.map (fun line =>
    let stripped :=
      match line with
      | c :: rest => if isBulletChar c then rest.drop (runLen isJsWS rest) else line
      | [] => line
    let content := trimL stripped
    { itemType := "bullet", content := content,
      priority := assessContentPriority content,
      category := some (categorizeContent content) : ContentItem }))]

end TextFormatter

namespace TextFormatter

/-- The section-header test of `parseStructuredSections`:
`/^(?:\d+\.\s*)?[A-Z][A-Z\s&\-']{3,}(?::|$)/`. -/
def secHeaderTest (l : List Char) : Bool :=
  let core := fun (m : List Char) =>
    match m with
    | c :: rest =>
      isUpper c &&
      (let r := runLen isHeaderClass rest
       decide (3 ≤ r) && (decide (rest.length = r) || decide ((rest.drop r).headD 'x' = ':')))
    | [] => false
  let d := runLen isDigit l
  if 1 ≤ d then
    match l.drop d with
    | '.' :: rest => core (rest.drop (runLen isJsWS rest))
    | _ => false
  else core l

/-- Length of the prefix matched by the section bullet pattern
`/^(?:[-•*]|\d+[.)])\s+/`, if it matches. -/
def secBulletLen (l : List Char) : Option Nat :=
  match l with
  | [] => none
  | c :: rest =>
    if isBulletChar c then
      let w := runLen isJsWS rest
      if 1 ≤ w then some (1 + w) else none
    else if isDigit c then
      let d := runLen isDigit (c :: rest)
      match (c :: rest).drop d with
      | p :: rest2 =>
        if (p = '.' || p = ')') && decide (1 ≤ runLen isJsWS rest2) then
          some (d + 1 + runLen isJsWS rest2)
        else none
      | [] => none
    else none

/-- Section title: `line.replace(/^\d+\.\s*/, '').replace(/:$/, '').trim()`. -/
def titleOf (l : List Char) : List Char :=
  let d := runLen isDigit l
  let unnumbered :=
    if 1 ≤ d then
      match l.drop d with
      | '.' :: rest => rest.drop (runLen isJsWS rest)
      | _ => l
    else l
  let uncoloned :=
    if unnumbered.getLastD 'x' = ':' then unnumbered.dropLast else unnumbered
  trimL uncoloned

/-- Bullet content of a non-bullet section line:
`line.replace(/^[-•*\s]*/, '').trim()` (the class includes whitespace). -/
def sectionLineContent (l : List Char) : List Char :=
  trimL (l.dropWhile (fun c => isBulletChar c || isJsWS c))

/-- Items produced for one long (> 100 characters) section line: the line is
split at sentence boundaries, each surviving sentence trimmed; the priority is
computed on the untrimmed sentence as in the source. -/
def longLineItems (bulletContent : List Char) : List ContentItem :=
  (longSentences bulletContent).map (fun sen =>
    { itemType := "bullet", content := trimL sen,
      priority := assessContentPriority sen, category := none })

/-- The `lines.forEach` accumulation of `parseStructuredSections`, carrying the
optional current section. -/
def sectionsGo : List (List Char) → Option ContentSection → List ContentSection
  | [], cur => match cur with | some s => [s] | none => []
  | line :: rest, cur =>
    if secHeaderTest line then
      (match cur with | some s => [s] | none => []) ++
        sectionsGo rest (some { title := titleOf line, items := [] })
    else
      match cur with
      | some s =>
        match secBulletLen line with
        | some n =>
          let content := trimL (line.drop n)
          sectionsGo rest (some { s with items := s.items ++
            [{ itemType := "bullet", content := content,
               priority := assessContentPriority content, category := none }] })
        | none =>
          if 15 < line.length then
            let bulletContent := sectionLineContent line
            if 100 < bulletContent.length then
              sectionsGo rest (some { s with items := s.items ++ longLineItems bulletContent })
            else
              sectionsGo rest (some { s with items := s.items ++
                [{ itemType := "bullet", content := bulletContent,
                   priority := assessContentPriority bulletContent, category := none }] })
          else sectionsGo rest cur
      | none => sectionsGo rest none

/-- `TextFormatter.parseStructuredSections` (`src/unnamed/part_001`); the
final pass forcing `type: 'bullet'` on every item is the identity on the
items built above but is kept for fidelity. -/
def parseStructuredSections (lines : List (List Char)) : StructuredContent :=
  .sections ((sectionsGo lines none).map (fun s =>
    { s with items := s.items.map (fun it => { it with itemType := "bullet" }) }))

/-- The line pipeline of `parseStructuredContent`: format, filter, bulletize,
split into trimmed non-empty lines. -/
def contentLines (t : List Char) : List (List Char) :=
  cleanLines (convertToBulletPoints (filterUnwantedContent (formatAnalysisText t)))

/-- `TextFormatter.parseStructuredContent` (`src/unnamed/part_001`) on string
input.  The guard `!text` yields the `No content available` placeholder; an
empty cleaned text yields the `Content could not be processed` placeholder;
otherwise the document is classified in the fixed order sections →
enhanced list → bullet fallback. -/
def parseStructuredContent (t : List Char) : StructuredContent :=
  if t = [] then .text "No content available".data
  else
    let cleaned := filterUnwantedContent (formatAnalysisText t)
    if trimL cleaned = [] then .text "Content could not be processed".data
    else
      let lines := contentLines t
      let listLines := lines.filter listPatternTest
      let headerLines := lines.filter (fun l => headerTest l || numberedHeaderTest l)
      if 0 < headerLines.length then parseStructuredSections lines
      else if 1 < listLines.length ∨ 2 < lines.length then parseListContent lines
      else parseAsBulletList lines

/-- `parseStructuredContent` including the JavaScript `null` input
(`!text || typeof text !== 'string'` guard): `null` and the empty string both
produce the `No content available` text placeholder. -/
def parseStructuredContentOpt : Option (List Char) → StructuredContent
  | none => .text "No content available".data
  | some t => parseStructuredContent t

end TextFormatter

/-! Claim theorems for the structure reconstructor. -/

open TextFormatter in
/-- Helper: whether a structured result is of the sections shape. -/
def isSectionsResult : StructuredContent → Bool
  | .sections _ => true
  | _ => false

open TextFormatter in
/-- Helper: the group keys of an enhanced-list result, in order. -/
def groupKeys : StructuredContent → List String
  | .enhancedList g => g.map Prod.fst
  | _ => []

open TextFormatter in
/-- C1: the claim states that `"EXPERIENCE:\n- Built system X\n- Led team Y"`
reconstructs as a Sectioned document with one section titled `EXPERIENCE`.
It does not: `filterUnwantedContent` drops the line `"EXPERIENCE:"` (eleven
characters, shorter than the 15-character minimum and not a bullet), so no
header survives and the result is the enhanced list below — in particular it
is not a sections result for any section list. -/
theorem c1_counterexample :
    parseStructuredContentOpt (some "EXPERIENCE:\n- Built system X\n- Led team Y".data) =
      .enhancedList
        [("general", [{ itemType := "listItem", content := "Built system X".data,
                        priority := "high", category := some "general" }]),
         ("leadership", [{ itemType := "listItem", content := "Led team Y".data,
                           priority := "high", category := some "leadership" }])] ∧
    isSectionsResult
      (parseStructuredContentOpt
        (some "EXPERIENCE:\n- Built system X\n- Led team Y".data)) = false := by
  have h : parseStructuredContentOpt
      (some "EXPERIENCE:\n- Built system X\n- Led team Y".data) =
      .enhancedList
        [("general", [{ itemType := "listItem", content := "Built system X".data,
                        priority := "high", category := some "general" }]),
         ("leadership", [{ itemType := "listItem", content := "Led team Y".data,
                           priority := "high", category := some "leadership" }])] := by
    decide
  exact ⟨h, by rw [h]; rfl⟩

open TextFormatter in
/-- C1 (amended): reconstructing `"EXPERIENCE:\n- Built system X\n- Led team Y"`
classifies the document as an enhanced list (the `EXPERIENCE:` header line is
removed by the noise filter as a short non-bullet line); the two items are
`Built system X` (category `general`) and `Led team Y` (category
`leadership`), and every item has priority `high`. -/
theorem c1_theorem :
    parseStructuredContentOpt (some "EXPERIENCE:\n- Built system X\n- Led team Y".data) =
      .enhancedList
        [("general", [{ itemType := "listItem", content := "Built system X".data,
                        priority := "high", category := some "general" }]),
         ("leadership", [{ itemType := "listItem", content := "Led team Y".data,
                           priority := "high", category := some "leadership" }])] := by
  decide

open TextFormatter in
/-- C9: `reconstruct` on the empty string and on `null` both return the
`No content available` text placeholder; both functions are total, so no
error can be raised. -/
theorem c9_theorem :
    parseStructuredContentOpt none = .text "No content available".data ∧
    parseStructuredContentOpt (some []) = .text "No content available".data := by
  exact ⟨rfl, rfl⟩

/-- The C5 flat-list input: a bullet list with lines about five years of
experience, Python and SQL skills, and a bachelor's degree. -/
def c5Input : List Char :=
  "- 5 years experience\n- Python and SQL skills\n- Bachelor".data ++
    [TextFormatter.apos] ++ "s degree".data

open TextFormatter in
/-- C5: the flat-list input whose lines contain `5 years experience`,
`Python and SQL skills` and `Bachelor's degree` classifies as an enhanced
list with exactly the three category groups `experience`, `technical` and
`education`, in that order. -/
theorem c5_theorem :
    parseStructuredContentOpt (some c5Input) =
      .enhancedList
        [("experience",
          [{ itemType := "listItem", content := "5 years experience".data,
             priority := "medium", category := some "experience" }]),
         ("technical",
          [{ itemType := "listItem", content := "Python and SQL skills".data,
             priority := "medium", category := some "technical" }]),
         ("education",
          [{ itemType := "listItem",
             content := "Bachelor".data ++ [apos] ++ "s degree".data,
             priority := "low", category := some "education" }])] ∧
    groupKeys (parseStructuredContentOpt (some c5Input)) =
      ["experience", "technical", "education"] := by
  have h : parseStructuredContentOpt (some c5Input) =
      .enhancedList
        [("experience",
          [{ itemType := "listItem", content := "5 years experience".data,
             priority := "medium", category := some "experience" }]),
         ("technical",
          [{ itemType := "listItem", content := "Python and SQL skills".data,
             priority := "medium", category := some "technical" }]),
         ("education",
          [{ itemType := "listItem",
             content := "Bachelor".data ++ [apos] ++ "s degree".data,
             priority := "low", category := some "education" }])] := by
    decide
  exact ⟨h, by rw [h]; rfl⟩

/-- The C4 counterexample input: three plain fifteen-character lines that are
neither headers nor list lines. -/
def c4Input : List Char := "alpha beta gam3\nalpha beta gam3\nalpha beta gam3".data

open TextFormatter in
/-- C4: the claim states that when no line matches the header pattern and at
most one line matches the list pattern, the bullet-fallback parser produces
the result.  The input `c4Input` (three plain lines) satisfies both
conditions, yet `parseStructuredContent` routes it to the enhanced-list
parser `parseListContent` (because of the `lines.length > 2` disjunct),
producing `description` items, which differs from the bullet-fallback
result. -/
theorem c4_counterexample :
    ((contentLines c4Input).filter (fun l => headerTest l || numberedHeaderTest l)) = [] ∧
    ((contentLines c4Input).filter listPatternTest).length ≤ 1 ∧
    parseStructuredContentOpt (some c4Input) =
      .enhancedList
        [("general",
          [{ itemType := "description", content := "alpha beta gam3".data,
             priority := "low", category := none },
           { itemType := "description", content := "alpha beta gam3".data,
             priority := "low", category := none },
           { itemType := "description", content := "alpha beta gam3".data,
             priority := "low", category := none }])] ∧
    parseStructuredContentOpt (some c4Input) ≠ parseAsBulletList (contentLines c4Input) := by
  refine ⟨by decide, by decide, ?_, ?_⟩
  · decide
  · decide

open TextFormatter in
/-- C4 (amended): classification runs in the fixed order sections →
enhanced list → bullet fallback and the first matching rule wins; the
enhanced-list parser is chosen exactly when no line matches a header pattern
and either more than one line matches the list pattern or there are more than
two lines; the bullet fallback is chosen only when neither of those holds
(given a non-empty input that survives cleaning). -/
theorem c4_theorem (t : List Char) (h1 : t ≠ [])
    (h2 : trimL (filterUnwantedContent (formatAnalysisText t)) ≠ []) :
    parseStructuredContent t =
      (if 0 < ((contentLines t).filter
            (fun l => headerTest l || numberedHeaderTest l)).length then
        parseStructuredSections (contentLines t)
      else if 1 < ((contentLines t).filter listPatternTest).length ∨
          2 < (contentLines t).length then
        parseListContent (contentLines t)
      else parseAsBulletList (contentLines t)) := by
  rw [parseStructuredContent]
  rw [if_neg h1, if_neg h2]

open TextFormatter in
/-- Witness for the amended C4 theorem at a concrete input. -/
theorem c4_witness :
    ("work record 9 summary here".data ≠ [] ∧
      trimL (filterUnwantedContent (formatAnalysisText
        "work record 9 summary here".data)) ≠ []) ∧
    parseStructuredContent "work record 9 summary here".data =
      (if 0 < ((contentLines "work record 9 summary here".data).filter
            (fun l => headerTest l || numberedHeaderTest l)).length then
        parseStructuredSections (contentLines "work record 9 summary here".data)
      else if 1 < ((contentLines "work record 9 summary here".data).filter
            listPatternTest).length ∨
          2 < (contentLines "work record 9 summary here".data).length then
        parseListContent (contentLines "work record 9 summary here".data)
      else parseAsBulletList (contentLines "work record 9 summary here".data)) :=
  ⟨⟨by decide, by decide⟩,
    c4_theorem "work record 9 summary here".data (by decide) (by decide)⟩

/-! Trimming lemmas shared by the chunker claims. -/

/-- Auxiliary: dropping a whitespace prefix does not change the
non-whitespace content. -/
theorem nonWS_dropWhile (l : List Char) : nonWS (l.dropWhile isJsWS) = nonWS l := by
  induction l with
  | nil => rfl
  | cons c rest ih =>
    by_cases h : isJsWS c
    · simp [List.dropWhile_cons, h, nonWS, List.filter_cons] at *
      exact ih
    · simp [List.dropWhile_cons, h]

/-- Trimming does not change the non-whitespace content. -/
theorem trimL_nonWS (l : List Char) : nonWS (trimL l) = nonWS l := by
  have hrev : ∀ m : List Char, nonWS m.reverse = (nonWS m).reverse := by
    intro m; simp [nonWS, List.filter_reverse]
  calc nonWS (trimL l)
      = (nonWS ((l.dropWhile isJsWS).reverse.dropWhile isJsWS)).reverse := hrev _
    _ = (nonWS ((l.dropWhile isJsWS).reverse)).reverse := by rw [nonWS_dropWhile]
    _ = (nonWS (l.dropWhile isJsWS)).reverse.reverse := by rw [hrev]
    _ = nonWS (l.dropWhile isJsWS) := List.reverse_reverse _
    _ = nonWS l := nonWS_dropWhile l

/-- A string with no non-whitespace content trims to the empty string. -/
theorem trimL_eq_nil_of_nonWS (l : List Char) (h : nonWS l = []) : trimL l = [] := by
  have hall : ∀ c ∈ l, isJsWS c := by
    intro c hc
    by_contra hw
    have : c ∈ nonWS l := List.mem_filter.mpr ⟨hc, by simpa using hw⟩
    simp [h] at this
  have h1 : l.dropWhile isJsWS = [] := List.dropWhile_eq_nil_iff.mpr hall
  simp [trimL, h1]

/-- A string with some non-whitespace content trims to a non-empty string. -/
theorem trimL_ne_nil (l : List Char) (h : nonWS l ≠ []) : trimL l ≠ [] := by
  intro hc
  exact h (by rw [← trimL_nonWS l, hc]; rfl)

/-- Chunks emitted by the memory-manager loop are non-empty trims. -/
theorem chunkLoop_mem (text : List Char) (cs ov : Nat) (start : Nat) :
    ∀ c ∈ MM.chunkLoop text cs ov start, c ≠ [] ∧ ∃ s, c = trimL s := by
  induction start using MM.chunkLoop.induct text cs ov with
  | case1 x hx e next ih =>
    rw [MM.chunkLoop]
    simp only [dif_pos hx]
    intro c hc
    rcases List.mem_append.mp hc with hl | hr
    · by_cases hch : trimL (jsSubstring text x (MM.computeEnd text cs x)) ≠ []
      · simp only [if_pos hch, List.mem_singleton] at hl
        exact ⟨hl ▸ hch, ⟨_, hl⟩⟩
      · simp [if_neg hch] at hl
    · exact ih c hr
  | case2 x hx =>
    rw [MM.chunkLoop]
    simp [dif_neg hx]

/-- C7: the claim quantifies over every text, but the empty string (whose
length is at most any positive chunk size) short-circuits to `[text]`, and the
empty chunk trims to length zero, so the returned sequence is not made of
non-empty strings. -/
theorem c7_counterexample :
    0 < 700 ∧ 200 < 700 ∧
    MM.splitTextIntoChunks [] 700 200 = [[]] ∧
    ¬ (0 < (trimL ([] : List Char)).length) := by
  refine ⟨by decide, by decide, by decide, by decide⟩

/-- C7 (amended): for every text containing at least one non-whitespace
character, every chunk returned by `splitTextIntoChunks` has positive length
after trimming (short texts are returned whole and trim to something
non-empty; loop chunks are non-empty trims, and trimming is idempotent on
them). -/
theorem c7_theorem (text : List Char) (chunkSize overlap : Nat)
    (_hcs : 0 < chunkSize) (_hov : overlap < chunkSize) (hnws : nonWS text ≠ []) :
    ∀ ch ∈ MM.splitTextIntoChunks text chunkSize overlap, 0 < (trimL ch).length := by
  intro ch hch
  rw [MM.splitTextIntoChunks] at hch
  by_cases hshort : text.length = 0 ∨ text.length ≤ chunkSize
  · rw [if_pos hshort] at hch
    simp only [List.mem_singleton] at hch
    subst hch
    have := trimL_ne_nil ch hnws
    cases hne : trimL ch with
    | nil => exact absurd hne this
    | cons a l => simp
  · rw [if_neg hshort] at hch
    have hmem := List.mem_filter.mp hch
    obtain ⟨hne, s, hs⟩ := chunkLoop_mem text chunkSize overlap 0 ch hmem.1
    have hns : nonWS ch ≠ [] := by
      intro hn
      have hs' : nonWS s = [] := by rw [← trimL_nonWS s, ← hs]; exact hn
      exact hne (hs.trans (trimL_eq_nil_of_nonWS s hs'))
    have := trimL_ne_nil ch hns
    cases hne2 : trimL ch with
    | nil => exact absurd hne2 this
    | cons a l => simp

/-- Witness for the amended C7 theorem at a concrete input. -/
theorem c7_witness :
    (0 < 700 ∧ 200 < 700 ∧ nonWS "short resume".data ≠ []) ∧
    (∀ ch ∈ MM.splitTextIntoChunks "short resume".data 700 200, 0 < (trimL ch).length) :=
  ⟨⟨by decide, by decide, by decide⟩,
    c7_theorem "short resume".data 700 200 (by decide) (by decide) (by decide)⟩

/-- C6: the claim covers the async chunker `splitTextAsyncChunks` as well, but
that variant has no empty-input short-circuit: on the empty string its loop
does not run and it returns the empty list, not a one-element list. -/
theorem c6_counterexample :
    OPT.splitTextAsyncChunks [] 700 200 = [] ∧
    OPT.splitTextAsyncChunks [] 700 200 ≠ [[]] := by
  have h : OPT.splitTextAsyncChunks [] 700 200 = [] := by
    rw [OPT.splitTextAsyncChunks, OPT.chunkLoop]
    simp
  exact ⟨h, by rw [h]; decide⟩

/-- C6 (amended): for the empty-string input and every positive chunk size and
overlap, the memory-manager and worker chunkers return the one-element list
containing the empty string, while the async chunker of
`optimizedDocumentProcessor.js` returns the empty list. -/
theorem c6_theorem (chunkSize overlap : Nat) (_hcs : 0 < chunkSize) :
    MM.splitTextIntoChunks [] chunkSize overlap = [[]] ∧
    DW.splitTextIntoChunks [] chunkSize overlap = [[]] ∧
    OPT.splitTextAsyncChunks [] chunkSize overlap = [] := by
  refine ⟨?_, ?_, ?_⟩
  · simp [MM.splitTextIntoChunks]
  · simp [DW.splitTextIntoChunks]
  · rw [OPT.splitTextAsyncChunks, OPT.chunkLoop]
    simp

/-- Witness for the amended C6 theorem at the default parameters. -/
theorem c6_witness :
    0 < 700 ∧
    (MM.splitTextIntoChunks [] 700 200 = [[]] ∧
     DW.splitTextIntoChunks [] 700 200 = [[]] ∧
     OPT.splitTextAsyncChunks [] 700 200 = []) :=
  ⟨by decide, c6_theorem 700 200 (by decide)⟩

/-! Characterization of `lastIndexOfLe`, shared by the boundary-preference and
iteration-count claims. -/

/-- `lastIndexOfLe` either fails, and no index in range holds the character,
or returns the greatest index in range holding it. -/
theorem lastIndexOfLe_cases (l : List Char) (c : Char) (i : Nat) :
    (lastIndexOfLe l c i = -1 ∧ ∀ j, j ≤ i → l.get? j ≠ some c) ∨
    (0 ≤ lastIndexOfLe l c i ∧ (lastIndexOfLe l c i).toNat ≤ i ∧
      l.get? (lastIndexOfLe l c i).toNat = some c ∧
      ∀ j, (lastIndexOfLe l c i).toNat < j → j ≤ i → l.get? j ≠ some c) := by
  have e0 : lastIndexOfLe l c 0 = if l.get? 0 = some c then 0 else -1 := rfl
  have eS : ∀ k : Nat, lastIndexOfLe l c (k + 1) =
      if l.get? (k + 1) = some c then ((k + 1 : Nat) : Int) else lastIndexOfLe l c k :=
    fun _ => rfl
  induction i with
  | zero =>
    by_cases h : l.get? 0 = some c
    · right
      rw [e0, if_pos h]
      refine ⟨by omega, by omega, h, ?_⟩
      intro j hj1 hj2
      omega
    · left
      rw [e0, if_neg h]
      refine ⟨rfl, ?_⟩
      intro j hj
      have : j = 0 := by omega
      exact this ▸ h
  | succ i ih =>
    by_cases h : l.get? (i + 1) = some c
    · right
      rw [eS, if_pos h]
      refine ⟨by omega, by omega, by simpa using h, ?_⟩
      intro j hj1 hj2
      simp only [Int.toNat_natCast] at hj1
      omega
    · have heq : lastIndexOfLe l c (i + 1) = lastIndexOfLe l c i := by
        rw [eS, if_neg h]
      rcases ih with ⟨h1, h2⟩ | ⟨h1, h2, h3, h4⟩
      · left
        refine ⟨heq.trans h1, ?_⟩
        intro j hj
        rcases Nat.lt_or_ge j (i + 1) with hlt | hge
        · exact h2 j (by omega)
        · have : j = i + 1 := by omega
          exact this ▸ h
      · right
        rw [heq]
        refine ⟨h1, by omega, h3, ?_⟩
        intro j hj1 hj2
        rcases Nat.lt_or_ge j (i + 1) with hlt | hge
        · exact h4 j hj1 (by omega)
        · have : j = i + 1 := by omega
          exact this ▸ h

/-- The found index is at least any index in range holding the character. -/
theorem lastIndexOfLe_ge (l : List Char) (c : Char) (i p : Nat)
    (hp : p ≤ i) (hc : l.get? p = some c) : (p : Int) ≤ lastIndexOfLe l c i := by
  rcases lastIndexOfLe_cases l c i with ⟨_, h2⟩ | ⟨h1, _, _, h4⟩
  · exact absurd hc (h2 p hp)
  · by_contra hlt
    push_neg at hlt
    have : (lastIndexOfLe l c i).toNat < p := by omega
    exact absurd hc (h4 p this hp)

/-- The result of `lastIndexOfLe` never exceeds its bound. -/
theorem lastIndexOfLe_le (l : List Char) (c : Char) (i : Nat) :
    lastIndexOfLe l c i ≤ (i : Int) := by
  rcases lastIndexOfLe_cases l c i with ⟨h1, _⟩ | ⟨h1, h2, _, _⟩
  · rw [h1]; omega
  · omega

/-- Exact value of `lastIndexOfLe` when the greatest occurrence is known. -/
theorem lastIndexOfLe_eq_of (l : List Char) (c : Char) (i p : Nat)
    (hp : p ≤ i) (hc : l.get? p = some c)
    (habove : ∀ j, p < j → j ≤ i → l.get? j ≠ some c) :
    lastIndexOfLe l c i = (p : Int) := by
  rcases lastIndexOfLe_cases l c i with ⟨_, h2⟩ | ⟨h1, h2, h3, h4⟩
  · exact absurd hc (h2 p hp)
  · have hge := lastIndexOfLe_ge l c i p hp hc
    rcases Nat.lt_trichotomy (lastIndexOfLe l c i).toNat p with hlt | heq | hgt
    · omega
    · omega
    · exact absurd h3 (habove _ hgt h2)

/-- Value of `lastIndexOfLe` when the character does not occur in range. -/
theorem lastIndexOfLe_eq_neg (l : List Char) (c : Char) (i : Nat)
    (habs : ∀ j, j ≤ i → l.get? j ≠ some c) :
    lastIndexOfLe l c i = -1 := by
  rcases lastIndexOfLe_cases l c i with ⟨h1, _⟩ | ⟨h1, h2, h3, h4⟩
  · exact h1
  · exact absurd h3 (habs _ h2)

/-- A sentence terminator (`.`, `?` or `!`) at index `p`. -/
def termAt (text : List Char) (p : Nat) : Prop :=
  text.get? p = some '.' ∨ text.get? p = some '?' ∨ text.get? p = some '!'

instance (text : List Char) (p : Nat) : Decidable (termAt text p) := by
  unfold termAt
  infer_instance

/-- Reformulation of `computeEnd` for a non-final window. -/
theorem computeEnd_eq (text : List Char) (cs start : Nat) (h : start + cs < text.length) :
    MM.computeEnd text cs start =
      (if 2 * (max (max (lastIndexOfLe text '.' (start + cs))
            (lastIndexOfLe text '?' (start + cs))) (lastIndexOfLe text '!' (start + cs))) >
          2 * (start : Int) + cs then
        ((max (max (lastIndexOfLe text '.' (start + cs)) (lastIndexOfLe text '?' (start + cs)))
          (lastIndexOfLe text '!' (start + cs))) + 1).toNat
      else if 2 * lastIndexOfLe text ' ' (start + cs) > 2 * (start : Int) + cs then
        (lastIndexOfLe text ' ' (start + cs)).toNat
      else start + cs) := by
  have h0 : ¬ text.length = 0 := by omega
  have hmin : min (start + cs) (text.length - 1) = start + cs := by omega
  rw [MM.computeEnd]
  simp only [if_pos h, lastIndexOf, if_neg h0, hmin]

/-- Any terminator index in range is bounded by the max of the three searches. -/
theorem term_le_max (text : List Char) (e0 : Nat) (j : Nat) (hj : j ≤ e0)
    (ht : termAt text j) :
    (j : Int) ≤ max (max (lastIndexOfLe text '.' e0) (lastIndexOfLe text '?' e0))
      (lastIndexOfLe text '!' e0) := by
  rcases ht with h | h | h
  · exact le_trans (lastIndexOfLe_ge text '.' e0 j hj h)
      (le_trans (le_max_left _ _) (le_max_left _ _))
  · exact le_trans (lastIndexOfLe_ge text '?' e0 j hj h)
      (le_trans (le_max_right _ _) (le_max_left _ _))
  · exact le_trans (lastIndexOfLe_ge text '!' e0 j hj h) (le_max_right _ _)

/-- When non-negative, the max of the three searches is itself a terminator
index in range. -/
theorem max_term_spec (text : List Char) (e0 : Nat)
    (hpos : 0 ≤ max (max (lastIndexOfLe text '.' e0) (lastIndexOfLe text '?' e0))
      (lastIndexOfLe text '!' e0)) :
    (max (max (lastIndexOfLe text '.' e0) (lastIndexOfLe text '?' e0))
        (lastIndexOfLe text '!' e0)).toNat ≤ e0 ∧
    termAt text (max (max (lastIndexOfLe text '.' e0) (lastIndexOfLe text '?' e0))
        (lastIndexOfLe text '!' e0)).toNat := by
  set D := lastIndexOfLe text '.' e0 with hD
  set Q := lastIndexOfLe text '?' e0 with hQ
  set E := lastIndexOfLe text '!' e0 with hE
  have hle : max (max D Q) E ≤ (e0 : Int) :=
    max_le (max_le (lastIndexOfLe_le text '.' e0) (lastIndexOfLe_le text '?' e0))
      (lastIndexOfLe_le text '!' e0)
  constructor
  · omega
  · rcases max_cases (max D Q) E with ⟨hm, _⟩ | ⟨hm, _⟩
    · rcases max_cases D Q with ⟨hm2, _⟩ | ⟨hm2, _⟩
      · rw [hm, hm2] at hpos ⊢
        unfold termAt
        rcases lastIndexOfLe_cases text '.' e0 with ⟨h1, _⟩ | ⟨_, _, h3, _⟩
        · have hD1 : D = -1 := hD.trans h1
          omega
        · left
          rw [hD]
          exact h3
      · rw [hm, hm2] at hpos ⊢
        unfold termAt
        rcases lastIndexOfLe_cases text '?' e0 with ⟨h1, _⟩ | ⟨_, _, h3, _⟩
        · have hQ1 : Q = -1 := hQ.trans h1
          omega
        · right; left
          rw [hQ]
          exact h3
    · rw [hm] at hpos ⊢
      unfold termAt
      rcases lastIndexOfLe_cases text '!' e0 with ⟨h1, _⟩ | ⟨_, _, h3, _⟩
      · have hE1 : E = -1 := hE.trans h1
        omega
      · right; right
        rw [hE]
        exact h3

/-- C8: boundary preference of the chunk window.  For a window that is not the
last one: if a sentence terminator lies in the half-open midpoint range, the
window end is one past the nearest (greatest) such terminator; otherwise if a
space lies in that range, the end is the nearest such space; otherwise the end
is the raw cut `start + chunkSize`.  The midpoint comparison
`p > start + chunkSize * 0.5` is rendered exactly as
`2 * start + chunkSize < 2 * p`. -/
theorem c8_theorem (text : List Char) (chunkSize start : Nat)
    (h : start + chunkSize < text.length) :
    ((∃ p, p ≤ start + chunkSize ∧ 2 * start + chunkSize < 2 * p ∧ termAt text p) →
      ∃ q, q ≤ start + chunkSize ∧ 2 * start + chunkSize < 2 * q ∧ termAt text q ∧
        (∀ r, q < r → r ≤ start + chunkSize → ¬ termAt text r) ∧
        MM.computeEnd text chunkSize start = q + 1) ∧
    ((∀ p, p ≤ start + chunkSize → 2 * start + chunkSize < 2 * p → ¬ termAt text p) →
      (∃ p, p ≤ start + chunkSize ∧ 2 * start + chunkSize < 2 * p ∧
        text.get? p = some ' ') →
      ∃ q, q ≤ start + chunkSize ∧ 2 * start + chunkSize < 2 * q ∧
        text.get? q = some ' ' ∧
        (∀ r, q < r → r ≤ start + chunkSize → text.get? r ≠ some ' ') ∧
        MM.computeEnd text chunkSize start = q) ∧
    ((∀ p, p ≤ start + chunkSize → 2 * start + chunkSize < 2 * p → ¬ termAt text p) →
      (∀ p, p ≤ start + chunkSize → 2 * start + chunkSize < 2 * p →
        text.get? p ≠ some ' ') →
      MM.computeEnd text chunkSize start = start + chunkSize) := by
  have hre := computeEnd_eq text chunkSize start h
  set M := max (max (lastIndexOfLe text '.' (start + chunkSize))
    (lastIndexOfLe text '?' (start + chunkSize)))
    (lastIndexOfLe text '!' (start + chunkSize)) with hM
  set S := lastIndexOfLe text ' ' (start + chunkSize) with hS
  refine ⟨?_, ?_, ?_⟩
  · rintro ⟨p, hp1, hp2, hp3⟩
    have hpM : (p : Int) ≤ M := hM ▸ term_le_max text (start + chunkSize) p hp1 hp3
    have hcond : 2 * M > 2 * (start : Int) + chunkSize := by omega
    have hM0 : (0 : Int) ≤ M := by omega
    obtain ⟨hle, hterm⟩ := max_term_spec text (start + chunkSize) (hM ▸ hM0)
    refine ⟨M.toNat, hM ▸ hle, by omega, hM ▸ hterm, ?_, ?_⟩
    · intro r hr1 hr2 htr
      have := hM ▸ term_le_max text (start + chunkSize) r hr2 htr
      omega
    · rw [hre, if_pos hcond]
      omega
  · intro hnoterm
    rintro ⟨p, hp1, hp2, hp3⟩
    have hcond : ¬ (2 * M > 2 * (start : Int) + chunkSize) := by
      intro hc
      have hM0 : (0 : Int) ≤ M := by omega
      obtain ⟨hle, hterm⟩ := max_term_spec text (start + chunkSize) (hM ▸ hM0)
      exact hnoterm M.toNat (hM ▸ hle) (by omega) (hM ▸ hterm)
    have hpS : (p : Int) ≤ S := hS ▸ lastIndexOfLe_ge text ' ' (start + chunkSize) p hp1 hp3
    have hcond2 : 2 * S > 2 * (start : Int) + chunkSize := by omega
    have hS0 : (0 : Int) ≤ S := by omega
    rcases lastIndexOfLe_cases text ' ' (start + chunkSize) with ⟨h1, _⟩ | ⟨_, h2, h3, h4⟩
    · rw [← hS] at h1
      omega
    · rw [← hS] at h2 h3 h4
      refine ⟨S.toNat, h2, by omega, h3, h4, ?_⟩
      rw [hre, if_neg hcond, if_pos hcond2]
  · intro hnoterm hnospace
    have hcond : ¬ (2 * M > 2 * (start : Int) + chunkSize) := by
      intro hc
      have hM0 : (0 : Int) ≤ M := by omega
      obtain ⟨hle, hterm⟩ := max_term_spec text (start + chunkSize) (hM ▸ hM0)
      exact hnoterm M.toNat (hM ▸ hle) (by omega) (hM ▸ hterm)
    have hcond2 : ¬ (2 * S > 2 * (start : Int) + chunkSize) := by
      intro hc
      have hS0 : (0 : Int) ≤ S := by omega
      rcases lastIndexOfLe_cases text ' ' (start + chunkSize) with ⟨h1, _⟩ | ⟨_, h2, h3, _⟩
      · rw [← hS] at h1
        omega
      · rw [← hS] at h2 h3
        exact hnospace S.toNat h2 (by omega) h3
    rw [hre, if_neg hcond, if_neg hcond2]

/-- Witness for the C8 theorem: in `"abcd. efgh"` with `chunkSize = 6` and
`start = 0`, the terminator at index 4 lies past the midpoint, so the window
end is 5. -/
theorem c8_witness :
    (0 + 6 < "abcd. efgh".data.length) ∧
    ((∃ p, p ≤ 0 + 6 ∧ 2 * 0 + 6 < 2 * p ∧ termAt "abcd. efgh".data p) →
      ∃ q, q ≤ 0 + 6 ∧ 2 * 0 + 6 < 2 * q ∧ termAt "abcd. efgh".data q ∧
        (∀ r, q < r → r ≤ 0 + 6 → ¬ termAt "abcd. efgh".data r) ∧
        MM.computeEnd "abcd. efgh".data 6 0 = q + 1) ∧
    ((∀ p, p ≤ 0 + 6 → 2 * 0 + 6 < 2 * p → ¬ termAt "abcd. efgh".data p) →
      (∃ p, p ≤ 0 + 6 ∧ 2 * 0 + 6 < 2 * p ∧ "abcd. efgh".data.get? p = some ' ') →
      ∃ q, q ≤ 0 + 6 ∧ 2 * 0 + 6 < 2 * q ∧ "abcd. efgh".data.get? q = some ' ' ∧
        (∀ r, q < r → r ≤ 0 + 6 → "abcd. efgh".data.get? r ≠ some ' ') ∧
        MM.computeEnd "abcd. efgh".data 6 0 = q) ∧
    ((∀ p, p ≤ 0 + 6 → 2 * 0 + 6 < 2 * p → ¬ termAt "abcd. efgh".data p) →
      (∀ p, p ≤ 0 + 6 → 2 * 0 + 6 < 2 * p → "abcd. efgh".data.get? p ≠ some ' ') →
      MM.computeEnd "abcd. efgh".data 6 0 = 0 + 6) :=
  ⟨by decide, c8_theorem "abcd. efgh".data 6 0 (by decide)⟩

/-- The two verbatim copies of the boundary search coincide. -/
theorem computeEnd_mm_dw (text : List Char) (cs start : Nat) :
    MM.computeEnd text cs start = DW.computeEnd text cs start := rfl

/-- The two verbatim copies of the chunking loop coincide. -/
theorem chunkLoop_mm_dw (text : List Char) (cs ov : Nat) (start : Nat) :
    MM.chunkLoop text cs ov start = DW.chunkLoop text cs ov start := by
  induction start using MM.chunkLoop.induct text cs ov with
  | case1 x hx e next ih =>
    rw [MM.chunkLoop, DW.chunkLoop, dif_pos hx, dif_pos hx, ← computeEnd_mm_dw]
    exact congrArg (fun l => _ ++ l) ih
  | case2 x hx =>
    rw [MM.chunkLoop, DW.chunkLoop, dif_neg hx, dif_neg hx]

/-- C10: the worker-side chunker `DocumentWorkerProcessor.splitTextIntoChunks`
and the backend chunker `splitTextIntoChunks` of `memoryManager.js` are
extensionally equal: on every input they return identical chunk sequences. -/
theorem c10_theorem (text : List Char) (chunkSize overlap : Nat) :
    MM.splitTextIntoChunks text chunkSize overlap =
      DW.splitTextIntoChunks text chunkSize overlap := by
  rw [MM.splitTextIntoChunks, DW.splitTextIntoChunks, chunkLoop_mm_dw]

/-! Coverage of the source text by the returned chunks (claim C2). -/

/-- The window end always lies strictly beyond the cursor. -/
theorem computeEnd_gt (text : List Char) (cs start : Nat) (hcs : 0 < cs) :
    start < MM.computeEnd text cs start := by
  by_cases h : start + cs < text.length
  · rw [computeEnd_eq text cs start h]
    split_ifs with h1 h2
    · omega
    · omega
    · omega
  · simp only [MM.computeEnd]
    rw [if_neg h]
    omega

/-- On ordered indices, `jsSubstring` is drop-then-take. -/
theorem jsSubstring_eq (text : List Char) (a b : Nat) (hab : a ≤ b) :
    jsSubstring text a b = (text.drop a).take (b - a) := by
  rw [jsSubstring, Nat.min_eq_left hab, Nat.max_eq_right hab]

/-- Coverage invariant of the chunk loop: with every position before `m`
already covered, the non-whitespace content from `m` on distributes, in
order, over the chunks still to be emitted. -/
theorem chunkCover_aux (text : List Char) (cs ov : Nat) (hcs : 0 < cs) (start : Nat) :
    ∀ m, start ≤ m →
      ∃ pieces : List (List Char),
        nonWS (text.drop m) = pieces.flatten ∧
        List.Forall₂ (fun p c => List.Sublist p (nonWS c)) pieces
          (MM.chunkLoop text cs ov start) := by
  induction start using MM.chunkLoop.induct text cs ov with
  | case1 x hx e next ih =>
    intro m hm
    have hgt : x < MM.computeEnd text cs x := computeEnd_gt text cs x hcs
    have hnext_le : max (x + 1) (MM.computeEnd text cs x - ov) ≤
        max m (MM.computeEnd text cs x) := by
      have h1 : x + 1 ≤ MM.computeEnd text cs x := hgt
      omega
    obtain ⟨pieces', hjoin, hfa⟩ := ih (max m (MM.computeEnd text cs x)) hnext_le
    have hsplit : text.drop m =
        (text.drop m).take (max m (MM.computeEnd text cs x) - m) ++
          text.drop (max m (MM.computeEnd text cs x)) := by
      have : text.drop (max m (MM.computeEnd text cs x)) =
          (text.drop m).drop (max m (MM.computeEnd text cs x) - m) := by
        rw [List.drop_drop]
        congr 1
        omega
      rw [this, List.take_append_drop]
    have hsub : List.Sublist
        (nonWS ((text.drop m).take (max m (MM.computeEnd text cs x) - m)))
        (nonWS (trimL (jsSubstring text x (MM.computeEnd text cs x)))) := by
      rw [trimL_nonWS, jsSubstring_eq text x _ (le_of_lt hgt)]
      rcases le_or_lt (MM.computeEnd text cs x) m with hle | hlt
      · have : max m (MM.computeEnd text cs x) - m = 0 := by omega
        rw [this]
        simp [nonWS]
      · have hmx : max m (MM.computeEnd text cs x) = MM.computeEnd text cs x := by omega
        rw [hmx]
        have heq : (text.drop m).take (MM.computeEnd text cs x - m) =
            ((text.drop x).take (MM.computeEnd text cs x - x)).drop (m - x) := by
          rw [List.drop_take, List.drop_drop]
          congr 1
          · omega
          · congr 1
            omega
        rw [heq]
        exact List.Sublist.filter _ (List.drop_sublist _ _)
    rw [MM.chunkLoop, dif_pos hx]
    by_cases hch : trimL (jsSubstring text x (MM.computeEnd text cs x)) ≠ []
    · refine ⟨nonWS ((text.drop m).take (max m (MM.computeEnd text cs x) - m)) :: pieces',
        ?_, ?_⟩
      · rw [List.flatten_cons, ← hjoin]
        conv_lhs => rw [hsplit]
        rw [nonWS, List.filter_append]
        rfl
      · simp only [if_pos hch, List.cons_append, List.nil_append]
        exact List.Forall₂.cons hsub hfa
    · have hchnil : trimL (jsSubstring text x (MM.computeEnd text cs x)) = [] := by
        by_contra hc
        exact hch hc
      have hpiece_nil :
          nonWS ((text.drop m).take (max m (MM.computeEnd text cs x) - m)) = [] := by
        have h' := hsub
        rw [hchnil] at h'
        exact List.sublist_nil.mp h'
      refine ⟨pieces', ?_, ?_⟩
      · rw [← hjoin]
        conv_lhs => rw [hsplit]
        rw [nonWS, List.filter_append]
        rw [nonWS] at hpiece_nil
        rw [hpiece_nil, List.nil_append]
        rfl
      · simp only [if_neg hch, List.nil_append]
        exact hfa
  | case2 x hx =>
    intro m hm
    refine ⟨[], ?_, ?_⟩
    · have : text.length ≤ m := by omega
      rw [List.drop_eq_nil_of_le this]
      rfl
    · rw [MM.chunkLoop, dif_neg hx]
      exact List.Forall₂.nil

/-- C2: coverage.  For every text and valid parameters, the non-whitespace
content of the text splits, in order and with no gaps, into consecutive
pieces, each of which embeds (as an ordered subsequence, accounting for the
de-duplicated overlap) into the non-whitespace content of the corresponding
returned chunk. -/
theorem c2_theorem (text : List Char) (chunkSize overlap : Nat)
    (hcs : 0 < chunkSize) (_hov : overlap < chunkSize) :
    ∃ pieces : List (List Char),
      nonWS text = pieces.flatten ∧
      List.Forall₂ (fun p c => List.Sublist p (nonWS c)) pieces
        (MM.splitTextIntoChunks text chunkSize overlap) := by
  rw [MM.splitTextIntoChunks]
  by_cases hshort : text.length = 0 ∨ text.length ≤ chunkSize
  · rw [if_pos hshort]
    exact ⟨[nonWS text], by simp,
      List.Forall₂.cons (List.Sublist.refl _) List.Forall₂.nil⟩
  · rw [if_neg hshort]
    have hfe : (MM.chunkLoop text chunkSize overlap 0).filter (fun c => c ≠ []) =
        MM.chunkLoop text chunkSize overlap 0 := by
      apply List.filter_eq_self.mpr
      intro c hc
      have := (chunkLoop_mem text chunkSize overlap 0 c hc).1
      simpa using this
    rw [hfe]
    obtain ⟨pieces, h1, h2⟩ := chunkCover_aux text chunkSize overlap hcs 0 0 (le_refl 0)
    exact ⟨pieces, by simpa using h1, h2⟩

/-- Witness for the C2 coverage theorem at a concrete input. -/
theorem c2_witness :
    (0 < 700 ∧ 200 < 700) ∧
    ∃ pieces : List (List Char),
      nonWS "resume text".data = pieces.flatten ∧
      List.Forall₂ (fun p c => List.Sublist p (nonWS c)) pieces
        (MM.splitTextIntoChunks "resume text".data 700 200) :=
  ⟨⟨by decide, by decide⟩, c2_theorem "resume text".data 700 200 (by decide) (by decide)⟩

/-! Iteration count of the chunking loop (claim C3).  The counterexample
family is the text `("aaaa.")^n` with `chunkSize = 5` and `overlap = 2`: the
terminator pulls every other window end back to the midpoint, so the cursor
advances by 2 then 3 over each period of 5 characters (two iterations per
period), while the claimed bound allows only `ceil(5n/3)` iterations. -/

/-- The five-character period of the counterexample text. -/
def c3Pat : List Char := "aaaa.".data

/-- The counterexample text: `n` copies of `"aaaa."`. -/
def c3Text (n : Nat) : List Char := (List.replicate n c3Pat).flatten

/-- Length of the counterexample text. -/
theorem c3Text_length (n : Nat) : (c3Text n).length = 5 * n := by
  induction n with
  | zero => rfl
  | succ n ih =>
    rw [c3Text, List.replicate_succ, List.flatten_cons]
    rw [List.length_append]
    rw [c3Text] at ih
    rw [ih]
    simp [c3Pat]
    omega

/-- Character of the counterexample text at index `i`: a dot at indices
congruent to 4 modulo 5, otherwise the letter `a`. -/
theorem c3Text_get (n : Nat) : ∀ i, i < 5 * n →
    (c3Text n).get? i = some (if i % 5 = 4 then '.' else 'a') := by
  induction n with
  | zero => intro i hi; omega
  | succ n ih =>
    intro i hi
    have hsplit : c3Text (n + 1) = c3Pat ++ c3Text n := by
      rw [c3Text, List.replicate_succ, List.flatten_cons, c3Text]
    rw [hsplit]
    by_cases h5 : i < 5
    · rw [List.get?_append (by simp [c3Pat]; omega)]
      interval_cases i <;> decide
    · rw [List.get?_append_right (by simp [c3Pat]; omega)]
      have hlen : c3Pat.length = 5 := by decide
      rw [hlen]
      rw [ih (i - 5) (by omega)]
      have : (i - 5) % 5 = i % 5 := by omega
      rw [this]

/-- Beyond the text, lookups fail. -/
theorem c3Text_none (n : Nat) (j : Nat) (hj : 5 * n ≤ j) : (c3Text n).get? j = none := by
  apply List.get?_eq_none.mpr
  rw [c3Text_length]
  omega

/-- The counterexample text contains no character other than `a` and `.`. -/
theorem c3_no_char (n : Nat) (c : Char) (hc1 : c ≠ '.') (hc2 : c ≠ 'a') (i : Nat) :
    lastIndexOfLe (c3Text n) c i = -1 := by
  apply lastIndexOfLe_eq_neg
  intro j _hj
  by_cases h5 : j < 5 * n
  · rw [c3Text_get n j h5]
    by_cases hm : j % 5 = 4
    · rw [if_pos hm]
      intro h
      exact hc1 (Option.some.inj h).symm
    · rw [if_neg hm]
      intro h
      exact hc2 (Option.some.inj h).symm
  · rw [c3Text_none n j (by omega)]
    simp

/-- The last dot at an index at most `i` is `5k + 4`, for `i` within the
following period. -/
theorem c3_lio_dot (n k : Nat) (hk : 5 * k + 4 < 5 * n) (i : Nat)
    (hi1 : 5 * k + 4 ≤ i) (hi2 : i ≤ 5 * k + 8) :
    lastIndexOfLe (c3Text n) '.' i = ((5 * k + 4 : Nat) : Int) := by
  apply lastIndexOfLe_eq_of
  · exact hi1
  · rw [c3Text_get n _ hk, if_pos (by omega)]
  · intro j hj1 hj2
    by_cases h5 : j < 5 * n
    · rw [c3Text_get n j h5, if_neg (by omega)]
      decide
    · rw [c3Text_none n j (by omega)]
      simp

/-- Window end from cursor `5k + 1`: the dot at `5k + 4` lies past the
midpoint, so the end is `5k + 5`. -/
theorem c3_ce1 (n k : Nat) (hk : k + 2 ≤ n) :
    MM.computeEnd (c3Text n) 5 (5 * k + 1) = 5 * k + 5 := by
  have hlt : 5 * k + 1 + 5 < (c3Text n).length := by rw [c3Text_length]; omega
  rw [computeEnd_eq _ _ _ hlt]
  rw [c3_lio_dot n k (by omega) _ (by omega) (by omega),
    c3_no_char n '?' (by decide) (by decide) _, c3_no_char n '!' (by decide) (by decide) _]
  rw [if_pos (by push_cast; omega)]
  push_cast
  omega

/-- Window end from cursor `5k + 3`: the last dot `5k + 4` is not past the
midpoint and there are no spaces, so the end is the raw cut `5k + 8`. -/
theorem c3_ce3 (n k : Nat) (hk : k + 2 ≤ n) :
    MM.computeEnd (c3Text n) 5 (5 * k + 3) = 5 * k + 8 := by
  have hlt : 5 * k + 3 + 5 < (c3Text n).length := by rw [c3Text_length]; omega
  rw [computeEnd_eq _ _ _ hlt]
  rw [c3_lio_dot n k (by omega) _ (by omega) (by omega),
    c3_no_char n '?' (by decide) (by decide) _, c3_no_char n '!' (by decide) (by decide) _,
    c3_no_char n ' ' (by decide) (by decide) _]
  rw [if_neg (by push_cast; omega), if_neg (by push_cast; omega)]

/-- One unfolding of the iteration counter. -/
theorem iterStep (text : List Char) (cs ov s : Nat) (h : s < text.length) :
    MM.chunkIterLoop text cs ov s =
      1 + MM.chunkIterLoop text cs ov (max (s + 1) (MM.computeEnd text cs s - ov)) := by
  rw [MM.chunkIterLoop, dif_pos h]

/-- Two loop iterations carry the cursor from `5k + 1` to `5(k+1) + 1`. -/
theorem c3_two_steps (n k : Nat) (hk : k + 2 ≤ n) :
    MM.chunkIterLoop (c3Text n) 5 2 (5 * k + 1) =
      2 + MM.chunkIterLoop (c3Text n) 5 2 (5 * (k + 1) + 1) := by
  rw [iterStep _ _ _ _ (by rw [c3Text_length]; omega)]
  rw [c3_ce1 n k hk]
  have h1 : max (5 * k + 1 + 1) (5 * k + 5 - 2) = 5 * k + 3 := by omega
  rw [h1]
  rw [iterStep _ _ _ _ (by rw [c3Text_length]; omega)]
  rw [c3_ce3 n k hk]
  have h2 : max (5 * k + 3 + 1) (5 * k + 8 - 2) = 5 * (k + 1) + 1 := by omega
  rw [h2]
  omega

/-- The initial iteration carries the cursor from `0` to `3`, and with one
more step to `6 = 5·1 + 1`. -/
theorem c3_first_steps (n : Nat) (hn : 2 ≤ n) :
    MM.chunkIterLoop (c3Text n) 5 2 0 =
      2 + MM.chunkIterLoop (c3Text n) 5 2 (5 * 1 + 1) := by
  rw [iterStep _ _ _ _ (by rw [c3Text_length]; omega)]
  have hce0 : MM.computeEnd (c3Text n) 5 0 = 5 := by
    have hlt : 0 + 5 < (c3Text n).length := by rw [c3Text_length]; omega
    rw [computeEnd_eq _ _ _ hlt]
    rw [show (0 + 5 : Nat) = 5 * 0 + 5 from rfl]
    rw [c3_lio_dot n 0 (by omega) _ (by omega) (by omega),
      c3_no_char n '?' (by decide) (by decide) _, c3_no_char n '!' (by decide) (by decide) _]
    rw [if_pos (by push_cast; omega)]
    push_cast
    omega
  rw [hce0]
  have h1 : max (0 + 1) (5 - 2) = 5 * 0 + 3 := by omega
  rw [h1]
  rw [iterStep _ _ _ _ (by rw [c3Text_length]; omega)]
  rw [c3_ce3 n 0 (by omega)]
  have h2 : max (5 * 0 + 3 + 1) (5 * 0 + 8 - 2) = 5 * 1 + 1 := by omega
  rw [h2]
  omega

/-- Lower bound on the remaining iterations from cursor `5j + 1`. -/
theorem c3_lower (n : Nat) (hn : 2 ≤ n) :
    ∀ d j, n - 1 - j = d → j ≤ n - 1 →
      2 * d ≤ MM.chunkIterLoop (c3Text n) 5 2 (5 * j + 1) := by
  intro d
  induction d with
  | zero => intro j _ _; exact Nat.zero_le _
  | succ d ih =>
    intro j hd hj
    rw [c3_two_steps n j (by omega)]
    have := ih (j + 1) (by omega) (by omega)
    omega

/-- Iteration count of the chunker on the counterexample text: at least
`2n - 2`. -/
theorem c3_iters_lower (n : Nat) (hn : 2 ≤ n) :
    2 * n - 2 ≤ MM.chunkIterations (c3Text n) 5 2 := by
  rw [MM.chunkIterations, if_neg (by rw [c3Text_length]; omega)]
  rw [c3_first_steps n hn]
  have := c3_lower n hn (n - 2) 1 (by omega) (by omega)
  omega

/-- C3: the claim's iteration bound is false.  There is no constant `C` such
that the loop always runs at most `ceil(length / (chunkSize - overlap)) + C`
times: on `("aaaa.")^n` with `chunkSize = 5`, `overlap = 2` the loop runs
`≥ 2n - 2` iterations while the claimed bound is `ceil(5n/3) + C`, and
`2n - 2` exceeds it for `n = 3C + 9`. -/
theorem c3_counterexample :
    ¬ ∃ C : Nat, ∀ (text : List Char) (chunkSize overlap : Nat),
        0 < chunkSize → overlap < chunkSize →
        MM.chunkIterations text chunkSize overlap ≤
          (text.length + (chunkSize - overlap) - 1) / (chunkSize - overlap) + C := by
  rintro ⟨C, hC⟩
  have hub := hC (c3Text (3 * C + 9)) 5 2 (by decide) (by decide)
  have hlb := c3_iters_lower (3 * C + 9) (by omega)
  rw [c3Text_length] at hub
  omega

/-- Remaining iterations are bounded by the remaining text length. -/
theorem chunkIterLoop_le (text : List Char) (cs ov : Nat) (s : Nat) :
    MM.chunkIterLoop text cs ov s ≤ text.length - s := by
  induction s using MM.chunkIterLoop.induct text cs ov with
  | case1 x hx e next ih =>
    rw [iterStep _ _ _ _ hx]
    have ih' : MM.chunkIterLoop text cs ov (max (x + 1) (MM.computeEnd text cs x - ov)) ≤
        text.length - max (x + 1) (MM.computeEnd text cs x - ov) := ih
    omega
  | case2 x hx =>
    rw [MM.chunkIterLoop, dif_neg hx]
    exact Nat.zero_le _

/-- C3 (amended): the chunker always terminates — the loop body strictly
increases the cursor, so the number of main-loop iterations is at most the
length of the text.  The claimed bound `ceil(length/(chunkSize-overlap)) + O(1)`
does not hold (see the counterexample). -/
theorem c3_theorem (text : List Char) (chunkSize overlap : Nat)
    (_hcs : 0 < chunkSize) (_hov : overlap < chunkSize) :
    MM.chunkIterations text chunkSize overlap ≤ text.length := by
  rw [MM.chunkIterations]
  split_ifs with h
  · exact Nat.zero_le _
  · have := chunkIterLoop_le text chunkSize overlap 0
    omega

/-- Witness for the amended C3 theorem at a concrete input. -/
theorem c3_witness :
    (0 < 5 ∧ 2 < 5) ∧
    MM.chunkIterations "aaaa.aaaa.aaaa.".data 5 2 ≤ "aaaa.aaaa.aaaa.".data.length :=
  ⟨⟨by decide, by decide⟩, c3_theorem "aaaa.aaaa.aaaa.".data 5 2 (by decide) (by decide)⟩
